import Mathlib

/-!
# GDS2 Wafer Map Converter — verification development

Shallow embedding of the core conversion pipeline of `wafermap_gui.py`:
coordinate extraction (`parse_gds2`), pitch detection (`detect_pitch`),
grid construction (`build_grid`), serialization (`format_output`) and the
reverse heuristic parser (`reparse`, the grid-reconstruction core of
`_update_from_raw_auto`).

Python strings are embedded as `List Char`; Python floats as `Rat`
(`math.sqrt d <= h` is embedded as `0 ≤ h ∧ d ≤ h^2`, exact for reals);
Python ints as `Nat`/`Int`.
-/

attribute [local semireducible] Rat.mul Rat.inv Rat.add Rat.sub Rat.ofScientific

namespace WaferMap

/-- Whitespace characters recognised by Python `str.strip()` / regex `\s`
(the Unicode whitespace set per `str.isspace`). -/
def isPyWS (c : Char) : Bool :=
  c = ' ' || c = '\t' || c = '\n' || c = '\r' || c = '\x0b' || c = '\x0c' ||
  c = '\x1c' || c = '\x1d' || c = '\x1e' || c = '\x1f' || c = '\x85' || c = '\xa0' ||
  c = ' ' || c = ' ' || c = ' ' || c = ' ' || c = ' ' ||
  c = ' ' || c = ' ' || c = ' ' || c = ' ' || c = ' ' ||
  c = ' ' || c = ' ' || c = ' ' || c = ' ' || c = ' ' ||
  c = ' ' || c = '　'

/-- Remove a maximal run of `p`-characters from the front. -/
def stripLeftP (p : Char → Bool) (l : List Char) : List Char := l.dropWhile p

/-- Remove a maximal run of `p`-characters from the back. -/
def stripRightP (p : Char → Bool) (l : List Char) : List Char :=
  (l.reverse.dropWhile p).reverse

/-- Python `str.strip()` with no argument. -/
def pyStrip (l : List Char) : List Char := stripLeftP isPyWS (stripRightP isPyWS l)

/-- Python `str.strip` with a double-quote argument: remove quotes from both ends. -/
def stripQuotes (l : List Char) : List Char :=
  stripLeftP (fun c => c = '"') (stripRightP (fun c => c = '"') l)

/-- Worker for `splitNL`, accumulating the current piece in reverse. -/
def splitNLAux : List Char → List Char → List (List Char)
  | [], acc => [acc.reverse]
  | c :: r, acc =>
    if c = '\n' then acc.reverse :: splitNLAux r [] else splitNLAux r (c :: acc)

/-- Python `text.split` on a single newline character (keeps empty pieces). -/
def splitNL (l : List Char) : List (List Char) := splitNLAux l []

/-- Worker for `splitQCQ`: split on the exact three-character delimiter
quote-comma-quote, scanning left to right, non-overlapping. -/
def splitQCQ : List Char → List Char → List (List Char)
  | [], acc => [acc.reverse]
  | c1 :: c2 :: c3 :: r, acc =>
    if c1 = '"' && c2 = ',' && c3 = '"' then acc.reverse :: splitQCQ r []
    else splitQCQ (c2 :: c3 :: r) (c1 :: acc)
  | c :: r, acc => splitQCQ r (c :: acc)

/-- Line-break characters recognised by Python `str.splitlines`. -/
def isLineBreak (c : Char) : Bool :=
  c = '\n' || c = '\r' || c = '\x0b' || c = '\x0c' || c = '\x1c' || c = '\x1d' ||
  c = '\x1e' || c = '\x85' || c = ' ' || c = ' '

/-- Worker for `pySplitlines`. A CRLF pair counts as one break; a trailing
break does not produce a final empty line. -/
def pySplitlinesAux : List Char → List Char → List (List Char)
  | [], [] => []
  | [], acc => [acc.reverse]
  | '\r' :: '\n' :: r, acc => acc.reverse :: pySplitlinesAux r []
  | c :: r, acc =>
    if isLineBreak c then acc.reverse :: pySplitlinesAux r []
    else pySplitlinesAux r (c :: acc)

/-- Python `text.splitlines()`. -/
def pySplitlines (l : List Char) : List (List Char) := pySplitlinesAux l []

/-- ASCII decimal digit test. -/
def isDigitCh (c : Char) : Bool := '0' ≤ c && c ≤ '9'

/-- The decimal digit character for `n < 10`. -/
def digitChar (n : Nat) : Char := Char.ofNat (48 + n)

/-- Fuelled worker for `natToChars` (`fuel ≥ n+1` always suffices). -/
def natToCharsAux : Nat → Nat → List Char
  | 0, _ => []
  | fuel + 1, n =>
    if n < 10 then [digitChar n]
    else natToCharsAux fuel (n / 10) ++ [digitChar (n % 10)]

/-- Decimal rendering of a nonnegative integer: Python `str(int)`. -/
def natToChars (n : Nat) : List Char := natToCharsAux (n + 1) n

/-- Numeric value of a digit string (most significant digit first). -/
def digitsToNat (l : List Char) : Nat := l.foldl (fun a c => a * 10 + (c.toNat - 48)) 0

/-! ## Coordinate Extractor (`parse_gds2`) -/

/-- A structure name (Python string). -/
abbrev SName := List Char

/-- A placement record: x (mm), y (mm), structure name. -/
abbrev PRec := Rat × Rat × SName

/-- Regex `^SREF\s*$` on a line. -/
def matchSREF (l : List Char) : Bool :=
  l.take 4 = ['S', 'R', 'E', 'F'] && (l.drop 4).all isPyWS

/-- Regex `^ENDEL\s*$` on a line. -/
def matchENDEL (l : List Char) : Bool :=
  l.take 5 = ['E', 'N', 'D', 'E', 'L'] && (l.drop 5).all isPyWS

/-- Regex `^SNAME\s+(.+)$` on a line, returning the captured name.
Inputs are stripped lines from `splitlines`, so they neither start or end
with whitespace nor contain line breaks; on that domain the greedy scan
below agrees with the backtracking regex. -/
def parseSNAME (l : List Char) : Option SName :=
  if l.take 5 = ['S', 'N', 'A', 'M', 'E'] then
    let r := l.drop 5
    if (r.takeWhile isPyWS).isEmpty then none
    else
      let nm := r.dropWhile isPyWS
      if nm.isEmpty then none
      else if nm.contains '\n' then none
      else some nm
  else none

/-- Parse `\d+(?:\.\d+)?` at the front; returns the value and the rest.
If a dot is not followed by a digit the optional fraction group fails and
the number ends before the dot, exactly as the regex backtracks. -/
def parseUDec (l : List Char) : Option (Rat × List Char) :=
  let ds := l.takeWhile isDigitCh
  let rest := l.dropWhile isDigitCh
  if ds.isEmpty then none
  else
    match rest with
    | '.' :: r2 =>
      let fs := r2.takeWhile isDigitCh
      let r3 := r2.dropWhile isDigitCh
      if fs.isEmpty then some ((digitsToNat ds : Rat), rest)
      else some ((digitsToNat ds : Rat) + (digitsToNat fs : Rat) / ((10 : Rat) ^ fs.length), r3)
    | _ => some ((digitsToNat ds : Rat), rest)

/-- Parse `-?\d+(?:\.\d+)?` at the front. -/
def parseSigned (l : List Char) : Option (Rat × List Char) :=
  match l with
  | '-' :: r => (parseUDec r).map fun v => (-v.1, v.2)
  | _ => parseUDec l

/-- Regex `^XY\s+(-?\d+(?:\.\d+)?)\s*:\s*(-?\d+(?:\.\d+)?)` on a line
(`re.match`: trailing content after the second number is ignored). -/
def parseXY (l : List Char) : Option (Rat × Rat) :=
  if l.take 2 = ['X', 'Y'] then
    let r0 := l.drop 2
    if (r0.takeWhile isPyWS).isEmpty then none
    else
      match parseSigned (r0.dropWhile isPyWS) with
      | none => none
      | some (v1, r2) =>
        match r2.dropWhile isPyWS with
        | ':' :: r4 =>
          match parseSigned (r4.dropWhile isPyWS) with
          | some (v2, _) => some (v1, v2)
          | none => none
        | _ => none
  else none

/-- One loop iteration of `parse_gds2`: given the filter set, the state
`(in_sref, cur_sname)` and the raw line, produce the next state and the
records emitted by this line. -/
def step (filter : List SName) (st : Bool × Option SName) (rawLine : List Char) :
    (Bool × Option SName) × List PRec :=
  let line := pyStrip rawLine
  if matchSREF line then ((true, none), [])
  else if !st.1 then (st, [])
  else
    match parseSNAME line with
    | some nm => ((st.1, some nm), [])
    | none =>
      match parseXY line with
      | some (a, b) =>
        (st,
          match st.2 with
          | some nm =>
            if filter.isEmpty || filter.contains nm then
              [(a / 1000000, b / 1000000, nm)]
            else []
          | none => [])
      | none => if matchENDEL line then ((false, st.2), []) else (st, [])

/-- State transition component of `step`. -/
def stepState (filter : List SName) (st : Bool × Option SName) (l : List Char) :
    Bool × Option SName :=
  (step filter st l).1

/-- The extractor state after processing a list of lines from the initial
state `(False, None)`. -/
def stateAfter (filter : List SName) (lines : List (List Char)) : Bool × Option SName :=
  lines.foldl (stepState filter) (false, none)

/-- Records emitted at line index `i` of `lines`. -/
def emitAt (filter : List SName) (lines : List (List Char)) (i : Nat) : List PRec :=
  (step filter (stateAfter filter (lines.take i)) (lines.getD i [])).2

/-- `parse_gds2(text, die_structure_names)`: scan the listing line by line
with the `SREF` / `SNAME` / `XY` / `ENDEL` state machine and collect
placement records in appearance order. -/
def parse_gds2 (text : List Char) (filter : List SName) : List PRec :=
  ((pySplitlines text).foldl
    (fun acc line =>
      let r := step filter acc.2 line
      (acc.1 ++ r.2, r.1))
    (([] : List PRec), ((false, none) : Bool × Option SName))).1

/-! ## Pitch Detector (`detect_pitch`) -/

/-- `sorted(set(vals))`: the ascending sorted list of distinct values. -/
def sortedDistinct (l : List Rat) : List Rat :=
  List.insertionSort (fun a b => a ≤ b) l.dedup

/-- Absolute consecutive differences of a list. -/
def consecDiffs : List Rat → List Rat
  | a :: b :: r => |b - a| :: consecDiffs (b :: r)
  | _ => []

/-- One comparison step of `counterTop`: keep the running best unless the
new element occurs strictly more often in `l`. -/
def counterStep (l : List Rat) : Option Rat → Rat → Option Rat
  | none, x => some x
  | some b, x => if l.count b < l.count x then some x else some b

/-- `Counter(l).most_common(1)[0][0]`: the most frequent element; ties are
broken by first occurrence (Counter insertion order). `none` iff `l = []`. -/
def counterTop (l : List Rat) : Option Rat :=
  l.foldl (counterStep l) none

/-- Join a list of lines, terminating each with a newline (the shape of the
formatter output viewed line by line). -/
def joinNL (ls : List (List Char)) : List Char := (ls.map fun l => l ++ ['\n']).flatten

/-- The positive consecutive differences of a value list (zero differences
discarded), the `diffs` list of `most_common_diff`. -/
def posDiffs (vals : List Rat) : List Rat := (consecDiffs vals).filter fun d => 0 < d

/-- `most_common_diff` of `detect_pitch`. -/
def most_common_diff (vals : List Rat) : Option Rat :=
  if vals.length < 2 then none
  else if (posDiffs vals).isEmpty then none
  else counterTop (posDiffs vals)

/-- `detect_pitch(coords)`: per-axis most common consecutive difference of
the sorted distinct coordinate values. -/
def detect_pitch (coords : List PRec) : Option Rat × Option Rat :=
  (most_common_diff (sortedDistinct (coords.map fun p => p.1)),
   most_common_diff (sortedDistinct (coords.map fun p => p.2.1)))

/-! ## Grid Builder (`build_grid`) -/

/-- Python 3 `round`: round half to even. -/
def pyRound (q : Rat) : Int :=
  let f := q.floor
  let r := q - f
  if r < 1 / 2 then f
  else if 1 / 2 < r then f + 1
  else if f % 2 = 0 then f else f + 1

/-- Squared distance of the nominal die center `(gx*dx, gy*dy)` from the origin. -/
def cellDistSq (gx gy : Int) (dx dy : Rat) : Rat :=
  ((gx : Rat) * dx) ^ 2 + ((gy : Rat) * dy) ^ 2

/-- Embeds `math.sqrt s ≤ h` for `s ≥ 0`: compare against the square. -/
def sqrtLeB (s h : Rat) : Bool := decide (0 ≤ h ∧ s ≤ h ^ 2)

/-- The occupied grid indices (`die_set`): rounded index of each coordinate,
kept when its nominal center lies within the wafer radius. -/
def occList (coords : List PRec) (diameter dx dy : Rat) : List (Int × Int) :=
  coords.filterMap fun p =>
    let gx := pyRound (p.1 / dx)
    let gy := pyRound (p.2.1 / dy)
    if sqrtLeB (cellDistSq gx gy dx dy) (diameter / 2) then some (gx, gy) else none

/-- Grid bounds `(min_gx, max_gx, min_gy, max_gy)`: occupied bounding box
expanded by one, or the centered fallback square when nothing is occupied. -/
def boundsOf (coords : List PRec) (diameter dx dy : Rat) : Int × Int × Int × Int :=
  match occList coords diameter dx dy with
  | [] =>
    let r := ((diameter / 2) / min dx dy).ceil + 1
    (-r, r, -r, r)
  | p :: ps =>
    ((ps.map Prod.fst).foldl min p.1 - 1,
     (ps.map Prod.fst).foldl max p.1 + 1,
     (ps.map fun q => q.2).foldl min p.2 - 1,
     (ps.map fun q => q.2).foldl max p.2 + 1)

/-- Classification of one cell, mirroring the row loop body of `build_grid`. -/
def classify (occ : List (Int × Int)) (half dx dy : Rat) (showEdge : Bool)
    (gx gy : Int) : Char :=
  if !sqrtLeB (cellDistSq gx gy dx dy) half then '.'
  else if occ.contains (gx, gy) then '?'
  else if showEdge &&
      (occ.contains (gx - 1, gy) || occ.contains (gx + 1, gy) ||
       occ.contains (gx, gy - 1) || occ.contains (gx, gy + 1)) then '*'
  else '.'

/-- `range(lo, hi+1)` over `Int`. -/
def intRangeAsc (lo hi : Int) : List Int :=
  (List.range (hi + 1 - lo).toNat).map fun (i : Nat) => lo + (i : Int)

/-- `range(hi, lo-1, -1)` over `Int`. -/
def intRangeDesc (hi lo : Int) : List Int :=
  (List.range (hi + 1 - lo).toNat).map fun (i : Nat) => hi - (i : Int)

/-- `build_grid(coords, diameter, die_x, die_y, show_edge)`. -/
def build_grid (coords : List PRec) (diameter dx dy : Rat) (showEdge : Bool) :
    List (List Char) :=
  match boundsOf coords diameter dx dy with
  | (mingx, maxgx, mingy, maxgy) =>
    (intRangeDesc maxgy mingy).map fun gy =>
      (intRangeAsc mingx maxgx).map fun gx =>
        classify (occList coords diameter dx dy) (diameter / 2) dx dy showEdge gx gy

/-! ## Map Formatter (`format_output`) -/

/-- The three line-ending modes. -/
inductive LineMode | sinf | crlf | lf deriving DecidableEq

/-- `','.join(quote + c + quote for c in row)`. -/
def rowCells : List Char → List Char
  | [] => []
  | [c] => ['"', c, '"']
  | c :: rest => ['"', c, '"', ','] ++ rowCells rest

/-- The bytes emitted for one grid row (cells plus line termination). -/
def rowChunk (mode : LineMode) (row : List Char) : List Char :=
  match mode with
  | .sinf => rowCells row ++ [',', '"', '\r', '"'] ++ ['\r', '\n']
  | .crlf => rowCells row ++ ['\r', '\n']
  | .lf => rowCells row ++ ['\n']

/-- The header lines of `format_output` (without line terminators).
`wid` is the wafer id and `diamStr` the Python `str(diameter)` text;
`str(int)` values are rendered with `natToChars`. -/
def headerList (grid : List (List Char)) (wid diamStr : List Char) (dieCount : Nat)
    (binRows : List (List Char)) : List (List Char) :=
  ([['"'] ++ wid ++ ("\",6,\"METRIC\",\"BOTTOM\",\"").data ++ diamStr ++
      ("\",\"").data ++ diamStr ++ ("\",").data ++ natToChars grid.length ++ [','] ++
      natToChars (grid.headD []).length ++ (",\"0\",\"0\"").data,
    ("\"44\",\"4\"").data, ("\"0\"").data, ("\"1\",\"4\"").data, ("\"POST\"").data,
    ("0").data, ("0").data, ("0").data, ("\"FALSE\"").data, ("0").data, ("0").data,
    ("\"FALSE\"").data, ("\"0\"").data, ("\"0\"").data,
    ['"'] ++ natToChars dieCount ++ ['"'],
    ("\"RVD\",\"RVD\",\"RVD\"").data, ("\"FALSE\"").data, ("\"\"").data,
    ("\"0\"").data, ("\"100:6\"").data,
    ("\"RVD\",\"RVD\",\"RVD\",\"RVD\",\"RVD\",\"RVD\",\"RVD\",\"RVD\",\"RVD\",\"RVD\",\"RVD\"").data,
    ("\"\"").data, ("\"\"").data,
    ("\"RVD\",\"RVD\",\"RVD\",\"RVD\",\"RVD\",\"RVD\",\"RVD\",\"RVD\",\"RVD\",\"RVD\",\"RVD\",\"RVD\",\"RVD\",\"RVD\"").data]) ++
  (if binRows.isEmpty then []
   else (['"'] ++ natToChars binRows.length ++ ['"']) :: binRows)

/-- `format_output(grid, wafer_id, diameter, die_count, line_mode, bin_rows)`:
header lines each terminated CRLF, then one chunk per grid row. -/
def format_output (grid : List (List Char)) (wid diamStr : List Char) (dieCount : Nat)
    (mode : LineMode) (binRows : List (List Char)) : List Char :=
  ((headerList grid wid diamStr dieCount binRows).map fun h => h ++ ['\r', '\n']).flatten ++
  (grid.map (rowChunk mode)).flatten

/-! ## Map Reparser (grid-reconstruction core of `_update_from_raw_auto`) -/

/-- Is a stripped cell one of the three wafer-map symbols? -/
def isSymCell (c : List Char) : Bool := c = ['.'] || c = ['?'] || c = ['*']

/-- `p.strip().strip(quote)` applied to one split part. -/
def cellOf (p : List Char) : List Char := stripQuotes (pyStrip p)

/-- The map-row test on an already stripped line: non-blank, at least ten
quote-comma-quote separated parts, every non-empty stripped cell a symbol. -/
def mapLineTest (s : List Char) : Bool :=
  if s.isEmpty then false
  else
    if (splitQCQ s []).length < 10 then false
    else ((splitQCQ s []).map cellOf).all fun c => c.isEmpty || isSymCell c

/-- Does a line look like a map row (the header-scan test)? -/
def isMapLine (l : List Char) : Bool := mapLineTest (pyStrip l)

/-- Row acceptance on an already stripped line: keep it only when every
non-empty cell is a symbol, dropping empty cells. -/
def parseRowCore (s : List Char) : Option (List (List Char)) :=
  if s.isEmpty then none
  else
    if ((splitQCQ s []).map cellOf).all (fun c => c.isEmpty || isSymCell c) then
      some (((splitQCQ s []).map cellOf).filter fun c => !c.isEmpty)
    else none

/-- Row-acceptance of the reconstruction loop: skip blank lines, keep a line
only when every non-empty cell is a symbol, dropping empty cells. -/
def parseRow (l : List Char) : Option (List (List Char)) := parseRowCore (pyStrip l)

/-- The `header_end` scan: index of the first line passing `isMapLine`,
with the Python sentinel value `0` when no line passes. -/
def findHeaderEnd : List (List Char) → Nat → Nat
  | [], _ => 0
  | l :: ls, i => if isMapLine l then i else findHeaderEnd ls (i + 1)

/-- The grid-reconstruction core of `_update_from_raw_auto`: locate the data
section, rebuild the rows, return `none` when nothing was recognised
(including when `header_end` is the sentinel `0`). -/
def reparse (t : List Char) : Option (List (List (List Char))) :=
  let lines := splitNL (pyStrip t)
  let he := findHeaderEnd lines 0
  if he = 0 then none
  else
    let g := (lines.drop he).filterMap parseRow
    if g.isEmpty then none else some g

/-- A grid of single characters viewed as a grid of one-character strings
(the cell representation `reparse` produces). -/
def gridAsCells (grid : List (List Char)) : List (List (List Char)) :=
  grid.map fun row => row.map fun c => [c]

/-- The visible content of a grid-row line (its chunk without the final
newline), as recovered by splitting the output on newline characters. -/
def rowLineOf (mode : LineMode) (row : List Char) : List Char :=
  match mode with
  | .sinf => rowCells row ++ [',', '"', '\r', '"', '\r']
  | .crlf => rowCells row ++ ['\r']
  | .lf => rowCells row

/-- Helper shape for `rowCells`: everything after the opening quote. -/
def rowTail : List Char → List Char
  | [] => []
  | [c] => [c, '"']
  | c :: rest => [c, '"', ','] ++ rowCells rest

/-- Replace the last line of a line list by its right-stripped form
(the effect of `text.strip()` on the final line before splitting). -/
def stripLastLine : List (List Char) → List (List Char)
  | [] => []
  | [l] => [stripRightP isPyWS l]
  | l :: ls => l :: stripLastLine ls

/-- Characters that cannot interfere with the quote-comma-quote splitting
or the line structure (no quote, comma, newline or carriage return). -/
def plainChar (c : Char) : Bool :=
  !(c = '"') && !(c = ',') && !(c = '\n') && !(c = '\r')

end WaferMap

namespace WaferMap

/-! ## Generic list access lemmas -/

theorem getD_map_range {α : Type} (n : Nat) (f : Nat → α) (i : Nat) (d : α) (h : i < n) :
    ((List.range n).map f).getD i d = f i := by
  rw [List.getD_eq_getElem?_getD, List.getElem?_map, List.getElem?_range h]
  rfl

theorem length_intRangeAsc (lo hi : Int) : (intRangeAsc lo hi).length = (hi + 1 - lo).toNat := by
  simp [intRangeAsc]

theorem length_intRangeDesc (hi lo : Int) : (intRangeDesc hi lo).length = (hi + 1 - lo).toNat := by
  simp [intRangeDesc]

/-! ## Grid Builder lemmas -/

theorem length_build_grid (coords : List PRec) (diameter dx dy : Rat) (se : Bool) :
    (build_grid coords diameter dx dy se).length =
      ((boundsOf coords diameter dx dy).2.2.2 + 1 - (boundsOf coords diameter dx dy).2.2.1).toNat := by
  simp [build_grid, length_intRangeDesc]

theorem build_grid_getD (coords : List PRec) (diameter dx dy : Rat) (se : Bool) (r c : Nat)
    (hr : r < (build_grid coords diameter dx dy se).length)
    (hc : c < ((build_grid coords diameter dx dy se).getD r []).length) :
    ((build_grid coords diameter dx dy se).getD r []).getD c ' ' =
      classify (occList coords diameter dx dy) (diameter / 2) dx dy se
        ((boundsOf coords diameter dx dy).1 + (c : Int))
        ((boundsOf coords diameter dx dy).2.2.2 - (r : Int)) := by
  have hrow : (build_grid coords diameter dx dy se).getD r [] =
      (intRangeAsc (boundsOf coords diameter dx dy).1 (boundsOf coords diameter dx dy).2.1).map
        (fun gx => classify (occList coords diameter dx dy) (diameter / 2) dx dy se gx
          ((boundsOf coords diameter dx dy).2.2.2 - (r : Int))) := by
    rw [length_build_grid] at hr
    simp only [build_grid, intRangeDesc, List.map_map]
    rw [getD_map_range _ _ _ _ hr]
    rfl
  rw [hrow] at hc ⊢
  rw [List.length_map, length_intRangeAsc] at hc
  simp only [intRangeAsc, List.map_map]
  rw [getD_map_range _ _ _ _ hc]
  rfl

theorem classify_star_iff (occ : List (Int × Int)) (half dx dy : Rat) (se : Bool) (gx gy : Int) :
    classify occ half dx dy se gx gy = '*' ↔
      se = true ∧ occ.contains (gx, gy) = false ∧
      sqrtLeB (cellDistSq gx gy dx dy) half = true ∧
      (occ.contains (gx - 1, gy) || occ.contains (gx + 1, gy) ||
        occ.contains (gx, gy - 1) || occ.contains (gx, gy + 1)) = true := by
  unfold classify
  split_ifs with h1 h2 h3
  · simp only [Bool.not_eq_true'] at h1
    simp [h1]
  · constructor
    · intro hq
      exact absurd hq (by decide)
    · rintro ⟨-, hco, -, -⟩
      rw [h2] at hco
      exact Bool.noConfusion hco
  · simp only [Bool.not_eq_true] at h1
    rw [Bool.not_eq_true] at h2
    rcases Bool.and_eq_true .. |>.mp h3 with ⟨hse, hne⟩
    have hs : sqrtLeB (cellDistSq gx gy dx dy) half = true := by simpa using h1
    exact iff_of_true rfl ⟨hse, h2, hs, hne⟩
  · simp only [Bool.not_eq_true] at h1
    rw [Bool.not_eq_true] at h2
    constructor
    · intro hco
      exact absurd hco (by decide)
    · rintro ⟨hse, -, -, hne⟩
      exact absurd (by rw [hse, hne]; rfl) h3

theorem classify_outside (occ : List (Int × Int)) (half dx dy : Rat) (se : Bool) (gx gy : Int)
    (h : sqrtLeB (cellDistSq gx gy dx dy) half = false) :
    classify occ half dx dy se gx gy = '.' := by
  unfold classify
  rw [h]
  rfl

theorem classify_occupied_le (occ : List (Int × Int)) (half dx dy : Rat) (se : Bool) (gx gy : Int)
    (h : classify occ half dx dy se gx gy = '?') :
    sqrtLeB (cellDistSq gx gy dx dy) half = true := by
  by_contra hs
  rw [Bool.not_eq_true] at hs
  rw [classify_outside occ half dx dy se gx gy hs] at h
  exact absurd h (by decide)

theorem classify_nil (half dx dy : Rat) (se : Bool) (gx gy : Int) :
    classify [] half dx dy se gx gy = '.' := by
  unfold classify
  split_ifs with h1 h2 h3 <;> simp_all [List.contains]

end WaferMap

namespace WaferMap

/-- C6: in every grid produced by `build_grid`, a cell is `'*'` (Edge) iff
`showEdge` is true, the cell index is not occupied, its nominal center lies
within the wafer radius, and one of the four axis neighbors is occupied. -/
theorem edge_iff (coords : List PRec) (diameter dx dy : Rat) (se : Bool) (r c : Nat)
    (hr : r < (build_grid coords diameter dx dy se).length)
    (hc : c < ((build_grid coords diameter dx dy se).getD r []).length) :
    ((build_grid coords diameter dx dy se).getD r []).getD c ' ' = '*' ↔
      se = true ∧
      (occList coords diameter dx dy).contains
        ((boundsOf coords diameter dx dy).1 + (c : Int),
          (boundsOf coords diameter dx dy).2.2.2 - (r : Int)) = false ∧
      sqrtLeB
        (cellDistSq ((boundsOf coords diameter dx dy).1 + (c : Int))
          ((boundsOf coords diameter dx dy).2.2.2 - (r : Int)) dx dy) (diameter / 2) = true ∧
      ((occList coords diameter dx dy).contains
          ((boundsOf coords diameter dx dy).1 + (c : Int) - 1,
            (boundsOf coords diameter dx dy).2.2.2 - (r : Int)) ||
        (occList coords diameter dx dy).contains
          ((boundsOf coords diameter dx dy).1 + (c : Int) + 1,
            (boundsOf coords diameter dx dy).2.2.2 - (r : Int)) ||
        (occList coords diameter dx dy).contains
          ((boundsOf coords diameter dx dy).1 + (c : Int),
            (boundsOf coords diameter dx dy).2.2.2 - (r : Int) - 1) ||
        (occList coords diameter dx dy).contains
          ((boundsOf coords diameter dx dy).1 + (c : Int),
            (boundsOf coords diameter dx dy).2.2.2 - (r : Int) + 1)) = true := by
  rw [build_grid_getD coords diameter dx dy se r c hr hc]
  exact classify_star_iff (occList coords diameter dx dy) (diameter / 2) dx dy se
    ((boundsOf coords diameter dx dy).1 + (c : Int))
    ((boundsOf coords diameter dx dy).2.2.2 - (r : Int))

/-- Witness for C6: one die at the origin, diameter 3 mm, 1 mm dies,
edges shown: the cell just above the center is an Edge cell. -/
theorem edge_iff_witness :
    ((build_grid [((0 : Rat), (0 : Rat), ['z'])] 3 1 1 true).getD 0 []).getD 1 ' ' = '*' :=
  (edge_iff [((0 : Rat), (0 : Rat), ['z'])] 3 1 1 true 0 1 (by decide) (by decide)).mpr
    (by decide)

/-- C7: every Occupied cell of a built grid has its index-based nominal
center within the declared radius, and every cell strictly outside the
radius is rendered `'.'`, never `'?'` or `'*'`. -/
theorem grid_containment (coords : List PRec) (diameter dx dy : Rat) (se : Bool) (r c : Nat)
    (hr : r < (build_grid coords diameter dx dy se).length)
    (hc : c < ((build_grid coords diameter dx dy se).getD r []).length) :
    (((build_grid coords diameter dx dy se).getD r []).getD c ' ' = '?' →
      sqrtLeB
        (cellDistSq ((boundsOf coords diameter dx dy).1 + (c : Int))
          ((boundsOf coords diameter dx dy).2.2.2 - (r : Int)) dx dy) (diameter / 2) = true) ∧
    (sqrtLeB
        (cellDistSq ((boundsOf coords diameter dx dy).1 + (c : Int))
          ((boundsOf coords diameter dx dy).2.2.2 - (r : Int)) dx dy) (diameter / 2) = false →
      ((build_grid coords diameter dx dy se).getD r []).getD c ' ' = '.') := by
  rw [build_grid_getD coords diameter dx dy se r c hr hc]
  exact ⟨classify_occupied_le (occList coords diameter dx dy) (diameter / 2) dx dy se
      ((boundsOf coords diameter dx dy).1 + (c : Int))
      ((boundsOf coords diameter dx dy).2.2.2 - (r : Int)),
    classify_outside (occList coords diameter dx dy) (diameter / 2) dx dy se
      ((boundsOf coords diameter dx dy).1 + (c : Int))
      ((boundsOf coords diameter dx dy).2.2.2 - (r : Int))⟩

/-- Witness for C7: the occupied center cell is within the radius, and an
out-of-radius corner cell is rendered `'.'`. -/
theorem grid_containment_witness :
    sqrtLeB (cellDistSq 0 0 1 1) ((3 : Rat) / 2) = true ∧
    ((build_grid [((0 : Rat), (0 : Rat), ['z'])] 2 1 1 false).getD 0 []).getD 0 ' ' = '.' :=
  ⟨(grid_containment [((0 : Rat), (0 : Rat), ['z'])] 3 1 1 true 1 1
      (by decide) (by decide)).1 (by decide),
    (grid_containment [((0 : Rat), (0 : Rat), ['z'])] 2 1 1 false 0 0
      (by decide) (by decide)).2 (by decide)⟩

/-- C4 (amended): both an Outside cell and an Inside-Empty cell are
classified (and hence serialized) as the same character `'.'`; the external
format does not distinguish them. -/
theorem outside_inside_same_dot (occ : List (Int × Int)) (half dx dy : Rat) (se : Bool)
    (gx gy : Int) :
    (sqrtLeB (cellDistSq gx gy dx dy) half = false → classify occ half dx dy se gx gy = '.') ∧
    (sqrtLeB (cellDistSq gx gy dx dy) half = true → occ.contains (gx, gy) = false →
      (se && (occ.contains (gx - 1, gy) || occ.contains (gx + 1, gy) ||
        occ.contains (gx, gy - 1) || occ.contains (gx, gy + 1))) = false →
      classify occ half dx dy se gx gy = '.') := by
  constructor
  · exact classify_outside occ half dx dy se gx gy
  · intro hs hm he
    unfold classify
    rw [hs, hm, he]
    rfl

/-- Witness for C4's amended statement at a concrete outside cell and a
concrete inside-empty cell. -/
theorem outside_inside_same_dot_witness :
    classify [((0 : Int), (0 : Int))] 1 1 1 false (-1) 1 = '.' ∧
    classify [((0 : Int), (0 : Int))] 1 1 1 false 0 1 = '.' :=
  ⟨(outside_inside_same_dot [((0 : Int), (0 : Int))] 1 1 1 false (-1) 1).1 (by decide),
    (outside_inside_same_dot [((0 : Int), (0 : Int))] 1 1 1 false 0 1).2
      (by decide) (by decide) (by decide)⟩

/-- C4 counterexample: in the grid built from one die at the origin with
diameter 2 mm, the top-left cell is Outside and the top-center cell is
Inside-Empty, yet both are serialized as the identical character `'.'`. -/
theorem outside_inside_cex :
    ((build_grid [((0 : Rat), (0 : Rat), ['z'])] 2 1 1 false).getD 0 []).getD 0 ' ' = '.' ∧
    ((build_grid [((0 : Rat), (0 : Rat), ['z'])] 2 1 1 false).getD 0 []).getD 1 ' ' = '.' ∧
    sqrtLeB (cellDistSq (-1) 1 1 1) ((2 : Rat) / 2) = false ∧
    sqrtLeB (cellDistSq 0 1 1 1) ((2 : Rat) / 2) = true ∧
    (occList [((0 : Rat), (0 : Rat), ['z'])] 2 1 1).contains (0, 1) = false := by
  decide

/-- C10: when no coordinate produces an in-radius occupied index, the grid
is the centered fallback square of side `2*r+1`, `r = ceil(half/minDie)+1`,
with every cell `'.'`. -/
theorem empty_fallback (coords : List PRec) (diameter dx dy : Rat) (se : Bool)
    (hd : 0 < diameter) (hx : 0 < dx) (hy : 0 < dy)
    (h0 : occList coords diameter dx dy = []) :
    boundsOf coords diameter dx dy =
      (-(((diameter / 2) / min dx dy).ceil + 1), ((diameter / 2) / min dx dy).ceil + 1,
        -(((diameter / 2) / min dx dy).ceil + 1), ((diameter / 2) / min dx dy).ceil + 1) ∧
    build_grid coords diameter dx dy se =
      List.replicate (2 * (((diameter / 2) / min dx dy).ceil + 1) + 1).toNat
        (List.replicate (2 * (((diameter / 2) / min dx dy).ceil + 1) + 1).toNat '.') := by
  have hb : boundsOf coords diameter dx dy =
      (-(((diameter / 2) / min dx dy).ceil + 1), ((diameter / 2) / min dx dy).ceil + 1,
        -(((diameter / 2) / min dx dy).ceil + 1), ((diameter / 2) / min dx dy).ceil + 1) := by
    unfold boundsOf
    rw [h0]
  refine ⟨hb, ?_⟩
  have key : ∀ mingx maxgx mingy maxgy : Int,
      (intRangeDesc maxgy mingy).map
        (fun gy => (intRangeAsc mingx maxgx).map fun gx =>
          classify [] (diameter / 2) dx dy se gx gy) =
      List.replicate (maxgy + 1 - mingy).toNat
        (List.replicate (maxgx + 1 - mingx).toNat '.') := by
    intro mingx maxgx mingy maxgy
    have hin : ∀ gy : Int,
        (intRangeAsc mingx maxgx).map
          (fun gx => classify [] (diameter / 2) dx dy se gx gy) =
        List.replicate (maxgx + 1 - mingx).toNat '.' := by
      intro gy
      rw [show (fun gx => classify [] (diameter / 2) dx dy se gx gy) =
          (fun _ => ('.' : Char)) from
        funext fun gx => classify_nil (diameter / 2) dx dy se gx gy]
      rw [List.map_const', length_intRangeAsc]
    rw [show (fun gy => (intRangeAsc mingx maxgx).map fun gx =>
        classify [] (diameter / 2) dx dy se gx gy) =
        (fun _ => List.replicate (maxgx + 1 - mingx).toNat ('.' : Char)) from
      funext fun gy => hin gy]
    rw [List.map_const', length_intRangeDesc]
  unfold build_grid
  rw [h0, hb]
  dsimp only
  rw [key]
  rw [show ((((diameter / 2) / min dx dy).ceil + 1) + 1 -
      -((((diameter / 2) / min dx dy).ceil + 1))) =
      2 * (((diameter / 2) / min dx dy).ceil + 1) + 1 from by ring]

/-- Witness for C10: empty coordinate list, diameter 10 mm, 1 mm dies. -/
theorem empty_fallback_witness :
    (0 : Rat) < 10 ∧ occList [] 10 1 1 = [] ∧
    build_grid [] 10 1 1 true = List.replicate 13 (List.replicate 13 '.') := by
  refine ⟨by decide, rfl, ?_⟩
  exact (empty_fallback [] 10 1 1 true (by decide) (by decide) (by decide) rfl).2

end WaferMap

namespace WaferMap

/-! ## Pitch Detector lemmas -/

theorem counterTop_go_mem (l : List Rat) :
    ∀ (todo : List Rat) (b : Option Rat) (d : Rat),
      todo.foldl (counterStep l) b = some d → b = some d ∨ d ∈ todo := by
  intro todo
  induction todo with
  | nil => intro b d h; exact Or.inl h
  | cons x rest ih =>
    intro b d h
    rw [List.foldl_cons] at h
    rcases ih (counterStep l b x) d h with h1 | h1
    · cases b with
      | none =>
        exact Or.inr (by rw [← Option.some.injEq x d |>.mp h1]; exact List.mem_cons_self x rest)
      | some b0 =>
        by_cases hc : l.count b0 < l.count x
        · rw [show counterStep l (some b0) x = some x from by simp only [counterStep]; rw [if_pos hc]]
            at h1
          exact Or.inr (by rw [← Option.some.injEq x d |>.mp h1]; exact List.mem_cons_self x rest)
        · rw [show counterStep l (some b0) x = some b0 from by simp only [counterStep]; rw [if_neg hc]]
            at h1
          exact Or.inl h1
    · exact Or.inr (List.mem_cons_of_mem x h1)

theorem counterTop_go_le (l : List Rat) :
    ∀ (todo : List Rat) (b : Option Rat) (d : Rat),
      todo.foldl (counterStep l) b = some d →
      (∀ x, b = some x → l.count x ≤ l.count d) ∧ ∀ e ∈ todo, l.count e ≤ l.count d := by
  intro todo
  induction todo with
  | nil =>
    intro b d h
    refine ⟨fun x hx => ?_, fun e he => absurd he (List.not_mem_nil e)⟩
    rw [hx] at h
    rw [Option.some.injEq .. |>.mp h]
  | cons y rest ih =>
    intro b d h
    rw [List.foldl_cons] at h
    obtain ⟨h1, h2⟩ := ih (counterStep l b y) d h
    constructor
    · intro x hx
      subst hx
      by_cases hc : l.count x < l.count y
      · refine le_trans (le_of_lt hc) (h1 y ?_)
        simp only [counterStep]
        rw [if_pos hc]
      · refine h1 x ?_
        simp only [counterStep]
        rw [if_neg hc]
    · intro e he
      rcases List.mem_cons.mp he with rfl | he2
      · cases b with
        | none => exact h1 e rfl
        | some b0 =>
          by_cases hc : l.count b0 < l.count e
          · refine h1 e ?_
            simp only [counterStep]
            rw [if_pos hc]
          · refine le_trans (not_lt.mp hc) (h1 b0 ?_)
            simp only [counterStep]
            rw [if_neg hc]
      · exact h2 e he2

theorem counterTop_spec (l : List Rat) (d : Rat) (h : counterTop l = some d) :
    d ∈ l ∧ ∀ e ∈ l, l.count e ≤ l.count d := by
  unfold counterTop at h
  rcases counterTop_go_mem l l none d h with h1 | h1
  · exact Option.noConfusion h1
  · exact ⟨h1, (counterTop_go_le l l none d h).2⟩

theorem foldl_counterStep_from_some (l : List Rat) :
    ∀ (todo : List Rat) (x : Rat), ∃ d, todo.foldl (counterStep l) (some x) = some d := by
  intro todo
  induction todo with
  | nil => intro x; exact ⟨x, rfl⟩
  | cons y rest ih =>
    intro x
    rw [List.foldl_cons]
    by_cases hc : l.count x < l.count y
    · rw [show counterStep l (some x) y = some y from by simp only [counterStep]; rw [if_pos hc]]
      exact ih y
    · rw [show counterStep l (some x) y = some x from by simp only [counterStep]; rw [if_neg hc]]
      exact ih x

theorem counterTop_ne_none (l : List Rat) (hne : l ≠ []) : ∃ d, counterTop l = some d := by
  match l, hne with
  | y :: rest, _ =>
    unfold counterTop
    rw [List.foldl_cons]
    exact foldl_counterStep_from_some (y :: rest) rest y

theorem most_common_diff_none_iff (vals : List Rat) :
    most_common_diff vals = none ↔ vals.length < 2 ∨ posDiffs vals = [] := by
  unfold most_common_diff
  split_ifs with h1 h2
  · simp [h1]
  · rw [List.isEmpty_iff] at h2
    simp [h1, h2]
  · rw [List.isEmpty_iff] at h2
    obtain ⟨d, hd⟩ := counterTop_ne_none _ h2
    simp [h1, h2, hd]

theorem most_common_diff_some (vals : List Rat) (d : Rat)
    (h : most_common_diff vals = some d) :
    d ∈ posDiffs vals ∧ ∀ e ∈ posDiffs vals, (posDiffs vals).count e ≤ (posDiffs vals).count d := by
  unfold most_common_diff at h
  split_ifs at h
  exact counterTop_spec _ d h

theorem sortedDistinct_sorted (l : List Rat) :
    List.Sorted (fun a b => a ≤ b) (sortedDistinct l) :=
  List.sorted_insertionSort (fun a b => a ≤ b) l.dedup

theorem sortedDistinct_nodup (l : List Rat) : (sortedDistinct l).Nodup :=
  ((List.perm_insertionSort (fun a b => a ≤ b) l.dedup).symm).nodup (List.nodup_dedup l)

theorem sortedDistinct_mem (l : List Rat) (v : Rat) : v ∈ sortedDistinct l ↔ v ∈ l := by
  rw [sortedDistinct, List.mem_insertionSort, List.mem_dedup]

/-- C9: `detect_pitch` treats each axis independently: it sorts the distinct
coordinate values ascending, takes consecutive differences, discards zeros,
and returns an element of maximal multiplicity among the positive
differences; it returns `none` exactly when there are fewer than two
distinct values or no positive differences. -/
theorem detect_pitch_spec (coords : List PRec) :
    List.Sorted (fun a b => a ≤ b) (sortedDistinct (coords.map fun p => p.1)) ∧
    (sortedDistinct (coords.map fun p => p.1)).Nodup ∧
    (∀ v, v ∈ sortedDistinct (coords.map fun p => p.1) ↔ v ∈ coords.map fun p => p.1) ∧
    ((detect_pitch coords).1 = none ↔
      (sortedDistinct (coords.map fun p => p.1)).length < 2 ∨
        posDiffs (sortedDistinct (coords.map fun p => p.1)) = []) ∧
    (∀ d, (detect_pitch coords).1 = some d →
      d ∈ posDiffs (sortedDistinct (coords.map fun p => p.1)) ∧
      ∀ e ∈ posDiffs (sortedDistinct (coords.map fun p => p.1)),
        (posDiffs (sortedDistinct (coords.map fun p => p.1))).count e ≤
          (posDiffs (sortedDistinct (coords.map fun p => p.1))).count d) ∧
    List.Sorted (fun a b => a ≤ b) (sortedDistinct (coords.map fun p => p.2.1)) ∧
    (sortedDistinct (coords.map fun p => p.2.1)).Nodup ∧
    (∀ v, v ∈ sortedDistinct (coords.map fun p => p.2.1) ↔ v ∈ coords.map fun p => p.2.1) ∧
    ((detect_pitch coords).2 = none ↔
      (sortedDistinct (coords.map fun p => p.2.1)).length < 2 ∨
        posDiffs (sortedDistinct (coords.map fun p => p.2.1)) = []) ∧
    (∀ d, (detect_pitch coords).2 = some d →
      d ∈ posDiffs (sortedDistinct (coords.map fun p => p.2.1)) ∧
      ∀ e ∈ posDiffs (sortedDistinct (coords.map fun p => p.2.1)),
        (posDiffs (sortedDistinct (coords.map fun p => p.2.1))).count e ≤
          (posDiffs (sortedDistinct (coords.map fun p => p.2.1))).count d) :=
  ⟨sortedDistinct_sorted _, sortedDistinct_nodup _, sortedDistinct_mem _,
    most_common_diff_none_iff _, fun d h => most_common_diff_some _ d h,
    sortedDistinct_sorted _, sortedDistinct_nodup _, sortedDistinct_mem _,
    most_common_diff_none_iff _, fun d h => most_common_diff_some _ d h⟩

/-- Witness for C9 at coordinates x ∈ {0, 2, 3}: the detected x-pitch 2 is a
positive consecutive difference of maximal multiplicity. -/
theorem detect_pitch_spec_witness :
    (2 : Rat) ∈ posDiffs (sortedDistinct
      ([((0 : Rat), (0 : Rat), ['a']), ((2 : Rat), (0 : Rat), ['a']),
        ((3 : Rat), (0 : Rat), ['a'])].map fun p => p.1)) ∧
    (posDiffs (sortedDistinct
      ([((0 : Rat), (0 : Rat), ['a']), ((2 : Rat), (0 : Rat), ['a']),
        ((3 : Rat), (0 : Rat), ['a'])].map fun p => p.1))).count 1 ≤
    (posDiffs (sortedDistinct
      ([((0 : Rat), (0 : Rat), ['a']), ((2 : Rat), (0 : Rat), ['a']),
        ((3 : Rat), (0 : Rat), ['a'])].map fun p => p.1))).count 2 := by
  have h := (detect_pitch_spec
    [((0 : Rat), (0 : Rat), ['a']), ((2 : Rat), (0 : Rat), ['a']),
      ((3 : Rat), (0 : Rat), ['a'])]).2.2.2.2.1 2 (by decide)
  exact ⟨h.1, h.2 1 (by decide)⟩

end WaferMap

namespace WaferMap

/-! ## Coordinate Extractor lemmas -/

theorem step_no_emit (filter : List SName) (st : Bool × Option SName) (l : List Char)
    (h : st.1 = false ∨ st.2 = none) : (step filter st l).2 = [] := by
  obtain ⟨b, nm⟩ := st
  rcases h with h | h
  · simp only at h
    subst h
    unfold step
    by_cases hs : matchSREF (pyStrip l)
    · rw [if_pos hs]
    · rw [if_neg hs]
      rfl
  · simp only at h
    subst h
    unfold step
    by_cases hs : matchSREF (pyStrip l)
    · rw [if_pos hs]
    · rw [if_neg hs]
      by_cases hb : b
      · rw [hb]
        cases hsn : parseSNAME (pyStrip l) with
        | some nm2 => simp [hsn]
        | none =>
          cases hxy : parseXY (pyStrip l) with
          | some v =>
            obtain ⟨a2, b2⟩ := v
            simp [hsn, hxy]
          | none =>
            by_cases he : matchENDEL (pyStrip l)
            · simp [hsn, hxy, he]
            · simp [hsn, hxy, he]
      · rw [Bool.not_eq_true] at hb
        rw [hb]
        rfl

theorem fold_emit (filter : List SName) :
    ∀ (lines : List (List Char)) (acc : List PRec) (st : Bool × Option SName),
      (lines.foldl
        (fun a line => ((a.1 ++ (step filter a.2 line).2 : List PRec), (step filter a.2 line).1))
        (acc, st)).1 =
      acc ++ ((List.range lines.length).map
        (fun i => (step filter ((lines.take i).foldl (stepState filter) st)
          (lines.getD i [])).2)).flatten := by
  intro lines
  induction lines with
  | nil => intro acc st; simp
  | cons l ls ih =>
    intro acc st
    rw [List.foldl_cons]
    rw [ih (acc ++ (step filter st l).2) (step filter st l).1]
    rw [List.length_cons, List.range_succ_eq_map, List.map_cons, List.flatten_cons,
      List.map_map, List.append_assoc]
    have hfun : ((fun i => (step filter (((l :: ls).take i).foldl (stepState filter) st)
        ((l :: ls).getD i [])).2) ∘ Nat.succ) =
        fun i => (step filter ((ls.take i).foldl (stepState filter) (stepState filter st l))
          (ls.getD i [])).2 := by
      funext i
      simp only [Function.comp_apply, List.take_succ_cons, List.foldl_cons, List.getD_cons_succ]
    rw [hfun]
    rfl

theorem parse_gds2_eq_flatten (text : List Char) (filter : List SName) :
    parse_gds2 text filter =
      ((List.range (pySplitlines text).length).map (emitAt filter (pySplitlines text))).flatten := by
  unfold parse_gds2
  rw [fold_emit filter (pySplitlines text) [] (false, none)]
  rfl

/-- C8: `parse_gds2` emits records only from lines at which the running
state is inside an `SREF` block with a current `SNAME` set: if the state
before line `i` has `in_sref = false` (the line is outside any block) or
`cur_sname = none` (no `SNAME` seen yet in the block), line `i` emits
nothing; and the whole result is exactly the concatenation of the per-line
emissions. -/
theorem extraction_scoping (filter : List SName) (text : List Char) (i : Nat)
    (h : (stateAfter filter ((pySplitlines text).take i)).1 = false ∨
      (stateAfter filter ((pySplitlines text).take i)).2 = none) :
    emitAt filter (pySplitlines text) i = [] ∧
    parse_gds2 text filter =
      ((List.range (pySplitlines text).length).map (emitAt filter (pySplitlines text))).flatten :=
  ⟨step_no_emit filter _ _ h, parse_gds2_eq_flatten text filter⟩

/-- Witness for C8: a lone `XY` line outside any block emits nothing. -/
theorem extraction_scoping_witness :
    emitAt [] (pySplitlines ("XY 5:5").data) 0 = [] ∧
    parse_gds2 ("XY 5:5").data [] =
      ((List.range (pySplitlines ("XY 5:5").data).length).map
        (emitAt [] (pySplitlines ("XY 5:5").data))).flatten :=
  extraction_scoping [] ("XY 5:5").data 0 (Or.inl rfl)

end WaferMap

namespace WaferMap

/-! ## Map Formatter lemmas -/

theorem rowChunk_sinf_eq (row : List Char) :
    rowChunk LineMode.sinf row = rowCells row ++ [',', '"', '\r', '"', '\r', '\n'] := by
  show rowCells row ++ [',', '"', '\r', '"'] ++ ['\r', '\n'] = _
  rw [List.append_assoc]
  rfl

theorem sinf_chunk_tail (row : List Char) :
    [',', '"', '\r', '"', '\r', '\n'] <:+ rowChunk LineMode.sinf row := by
  rw [rowChunk_sinf_eq]
  exact List.suffix_append (rowCells row) [',', '"', '\r', '"', '\r', '\n']

theorem headerList_cons (grid : List (List Char)) (wid diamStr : List Char) (dieCount : Nat)
    (binRows : List (List Char)) :
    ∃ h0 t, headerList grid wid diamStr dieCount binRows = h0 :: t :=
  ⟨_, _, by unfold headerList; rfl⟩

/-- C2 (amended): in SINF mode every grid-row chunk ends with the byte
sequence comma, quote, CR, quote, CR, LF — the comma precedes the quoted-CR
field — the whole output ends with that sequence when the grid is nonempty,
and every header line is terminated by CRLF. -/
theorem sinf_row_tail (grid : List (List Char)) (wid diamStr : List Char) (dieCount : Nat)
    (binRows : List (List Char)) (row : List Char) (hrow : row ∈ grid) (hg : grid ≠ []) :
    [',', '"', '\r', '"', '\r', '\n'] <:+ rowChunk LineMode.sinf row ∧
    [',', '"', '\r', '"', '\r', '\n'] <:+
      format_output grid wid diamStr dieCount LineMode.sinf binRows ∧
    ∀ h ∈ headerList grid wid diamStr dieCount binRows, ['\r', '\n'] <:+ h ++ ['\r', '\n'] := by
  refine ⟨sinf_chunk_tail row, ?_, fun h _ => List.suffix_append h ['\r', '\n']⟩
  rcases List.eq_nil_or_concat grid with rfl | ⟨L, b, rfl⟩
  · exact absurd rfl hg
  · have h1 : [',', '"', '\r', '"', '\r', '\n'] <:+ rowChunk LineMode.sinf b :=
      sinf_chunk_tail b
    refine h1.trans ?_
    unfold format_output
    rw [List.concat_eq_append, List.map_append, List.flatten_append]
    simp only [List.map_cons, List.map_nil, List.flatten_cons, List.flatten_nil,
      List.append_nil]
    rw [← List.append_assoc]
    exact List.suffix_append _ (rowChunk LineMode.sinf b)

/-- Witness for C2's amended statement on a concrete one-row document. -/
theorem sinf_row_tail_witness :
    [',', '"', '\r', '"', '\r', '\n'] <:+ rowChunk LineMode.sinf (List.replicate 10 '.') ∧
    [',', '"', '\r', '"', '\r', '\n'] <:+
      format_output [List.replicate 10 '.'] ['W'] ['1'] 0 LineMode.sinf [] ∧
    ∀ h ∈ headerList [List.replicate 10 '.'] ['W'] ['1'] 0 [], ['\r', '\n'] <:+ h ++ ['\r', '\n'] :=
  sinf_row_tail [List.replicate 10 '.'] ['W'] ['1'] 0 [] (List.replicate 10 '.')
    (List.mem_cons_self _ _) (by decide)

/-- C2 counterexample: the SINF output of a concrete document ends with
comma, quote, CR, quote, CRLF — not with the claimed sequence quote, CR,
quote, comma, CRLF. -/
theorem sinf_tail_order_cex :
    ¬ (['"', '\r', '"', ',', '\r', '\n'] <:+
        format_output [List.replicate 10 '.'] ['W'] ['1'] 0 LineMode.sinf []) ∧
    [',', '"', '\r', '"', '\r', '\n'] <:+
      format_output [List.replicate 10 '.'] ['W'] ['1'] 0 LineMode.sinf [] := by
  decide

theorem rowCells_chars (row : List Char) :
    ∀ c ∈ rowCells row, c = '"' ∨ c = ',' ∨ c ∈ row := by
  induction row with
  | nil => intro c hc; exact absurd hc (by simp [rowCells])
  | cons a rest ih =>
    cases rest with
    | nil =>
      intro c hc
      rw [show rowCells [a] = ['"', a, '"'] from rfl] at hc
      simp only [List.mem_cons, List.not_mem_nil, or_false] at hc
      rcases hc with rfl | rfl | rfl
      · exact Or.inl rfl
      · exact Or.inr (Or.inr (List.mem_singleton.mpr rfl))
      · exact Or.inl rfl
    | cons b rest2 =>
      intro c hc
      rw [show rowCells (a :: b :: rest2) = ['"', a, '"', ','] ++ rowCells (b :: rest2)
        from rfl] at hc
      rcases List.mem_append.mp hc with h | h
      · simp only [List.mem_cons, List.not_mem_nil, or_false] at h
        rcases h with rfl | rfl | rfl | rfl
        · exact Or.inl rfl
        · exact Or.inr (Or.inr (by simp))
        · exact Or.inl rfl
        · exact Or.inr (Or.inl rfl)
      · rcases ih c h with h1 | h1 | h1
        · exact Or.inl h1
        · exact Or.inr (Or.inl h1)
        · exact Or.inr (Or.inr (List.mem_cons_of_mem _ h1))

/-- C3 (amended): in LF mode a grid-row chunk is the cells followed by one
line feed and contains no carriage return, but header (and bin) lines are
still terminated by CRLF, so the LF-mode output does contain carriage
returns. -/
theorem lf_rows_crlf_headers (grid : List (List Char)) (wid diamStr : List Char)
    (dieCount : Nat) (binRows : List (List Char)) (row : List Char) (hrow : row ∈ grid)
    (hsym : ∀ c ∈ row, c = '.' ∨ c = '?' ∨ c = '*') :
    rowChunk LineMode.lf row = rowCells row ++ ['\n'] ∧
    '\r' ∉ rowChunk LineMode.lf row ∧
    '\n' ∉ rowCells row ∧
    '\r' ∈ format_output grid wid diamStr dieCount LineMode.lf binRows := by
  have hnotin : ∀ c ∈ rowCells row, c ≠ '\r' ∧ c ≠ '\n' := by
    intro c hc
    rcases rowCells_chars row c hc with rfl | rfl | hm
    · exact ⟨by decide, by decide⟩
    · exact ⟨by decide, by decide⟩
    · rcases hsym c hm with rfl | rfl | rfl
      · exact ⟨by decide, by decide⟩
      · exact ⟨by decide, by decide⟩
      · exact ⟨by decide, by decide⟩
  refine ⟨rfl, ?_, ?_, ?_⟩
  · intro hmem
    rw [show rowChunk LineMode.lf row = rowCells row ++ ['\n'] from rfl] at hmem
    rcases List.mem_append.mp hmem with h | h
    · exact (hnotin _ h).1 rfl
    · rw [List.mem_singleton] at h
      exact absurd h (by decide)
  · intro hmem
    exact (hnotin _ hmem).2 rfl
  · obtain ⟨h0, t, heq⟩ := headerList_cons grid wid diamStr dieCount binRows
    unfold format_output
    apply List.mem_append_left
    rw [heq, List.map_cons, List.flatten_cons]
    apply List.mem_append_left
    apply List.mem_append_right
    decide

/-- Witness for C3's amended statement on a concrete one-row document. -/
theorem lf_rows_crlf_headers_witness :
    rowChunk LineMode.lf (List.replicate 10 '.') = rowCells (List.replicate 10 '.') ++ ['\n'] ∧
    '\r' ∉ rowChunk LineMode.lf (List.replicate 10 '.') ∧
    '\n' ∉ rowCells (List.replicate 10 '.') ∧
    '\r' ∈ format_output [List.replicate 10 '.'] ['W'] ['1'] 0 LineMode.lf [] :=
  lf_rows_crlf_headers [List.replicate 10 '.'] ['W'] ['1'] 0 [] (List.replicate 10 '.')
    (List.mem_cons_self _ _) (by decide)

/-- C3 counterexample: the LF-mode output of a concrete document contains
carriage-return bytes (from the CRLF-terminated header lines). -/
theorem lf_output_contains_cr_cex :
    '\r' ∈ format_output [List.replicate 10 '.'] ['W'] ['1'] 0 LineMode.lf [] := by
  decide

end WaferMap

namespace WaferMap

/-! ## Map Reparser lemmas -/

theorem findHeaderEnd_eq (lines : List (List Char)) :
    ∀ i, findHeaderEnd lines i = (lines.findIdx? isMapLine i).getD 0 := by
  induction lines with
  | nil => intro i; rfl
  | cons l ls ih =>
    intro i
    rw [List.findIdx?_cons]
    rw [show findHeaderEnd (l :: ls) i =
      if isMapLine l then i else findHeaderEnd ls (i + 1) from rfl]
    by_cases hp : isMapLine l = true
    · rw [if_pos hp, if_pos hp]
      rfl
    · rw [if_neg hp, if_neg hp]
      exact ih (i + 1)

/-- C5 (amended): `reparse` scans for the first line passing the map-row
test (non-blank, at least ten quote-comma-quote parts, every non-empty
stripped cell one of `.`, `?`, `*`) and rebuilds the grid from that line to
the end of the text — but only when that line is not the very first line:
a match at index 0 is conflated with "no match" by the `header_end == 0`
sentinel and yields an absent result, as does an empty reconstructed row
list. The function is total: it never raises. -/
theorem reparse_characterization (t : List Char) :
    reparse t =
      match (splitNL (pyStrip t)).findIdx? isMapLine with
      | none => none
      | some 0 => none
      | some (i + 1) =>
        if ((splitNL (pyStrip t)).drop (i + 1)).filterMap parseRow = [] then none
        else some (((splitNL (pyStrip t)).drop (i + 1)).filterMap parseRow) := by
  unfold reparse
  dsimp only
  rw [findHeaderEnd_eq (splitNL (pyStrip t)) 0]
  cases hf : (splitNL (pyStrip t)).findIdx? isMapLine with
  | none => rfl
  | some j =>
    cases j with
    | zero => rfl
    | succ i =>
      simp only [Option.getD_some]
      rw [if_neg (Nat.succ_ne_zero i)]
      by_cases hg : ((splitNL (pyStrip t)).drop (i + 1)).filterMap parseRow = []
      · rw [if_pos (by rw [hg]; rfl), if_pos hg]
      · rw [if_neg (fun hcon => hg (List.isEmpty_iff.mp hcon)), if_neg hg]

/-- C5 counterexample: a text whose very first line is a valid map row (ten
`.` cells) is rejected: the `header_end == 0` sentinel makes `reparse`
return absent even though the first line passes the data-section test and
yields one valid row. -/
theorem reparse_first_line_cex :
    isMapLine (rowCells (List.replicate 10 '.')) = true ∧
    (splitNL (pyStrip (rowCells (List.replicate 10 '.')))).filterMap parseRow =
      [List.replicate 10 ['.']] ∧
    reparse (rowCells (List.replicate 10 '.')) = none := by
  decide

end WaferMap

namespace WaferMap

/-! ## Strip and split lemmas for the round-trip proof -/

theorem stripRightP_concat_neg (p : Char → Bool) (x : List Char) (c : Char)
    (hc : p c = false) : stripRightP p (x ++ [c]) = x ++ [c] := by
  unfold stripRightP
  rw [List.reverse_append, List.reverse_singleton, List.singleton_append,
    List.dropWhile_cons_of_neg (by rw [hc]; exact Bool.false_ne_true)]
  rw [List.reverse_cons, List.reverse_reverse]

theorem stripRightP_concat_pos (p : Char → Bool) (x : List Char) (c : Char)
    (hc : p c = true) : stripRightP p (x ++ [c]) = stripRightP p x := by
  unfold stripRightP
  rw [List.reverse_append, List.reverse_singleton, List.singleton_append,
    List.dropWhile_cons_of_pos hc]

theorem stripRightP_append (p : Char → Bool) (x y : List Char)
    (hy : stripRightP p y ≠ []) : stripRightP p (x ++ y) = x ++ stripRightP p y := by
  unfold stripRightP at hy ⊢
  rw [List.reverse_append, List.dropWhile_append]
  have hne : ¬(List.dropWhile p y.reverse).isEmpty = true := by
    intro hcon
    rw [List.isEmpty_iff] at hcon
    rw [hcon] at hy
    exact hy rfl
  rw [if_neg hne, List.reverse_append, List.reverse_reverse]

theorem stripRightP_idem (p : Char → Bool) (l : List Char) :
    stripRightP p (stripRightP p l) = stripRightP p l := by
  unfold stripRightP
  rw [List.reverse_reverse]
  have : List.dropWhile p (List.dropWhile p l.reverse) = List.dropWhile p l.reverse := by
    cases hd : List.dropWhile p l.reverse with
    | nil => rfl
    | cons a t =>
      have ha : p a = false := by
        have := List.head?_dropWhile_not p l.reverse
        rw [hd] at this
        simpa using this
      rw [List.dropWhile_cons_of_neg (by rw [ha]; exact Bool.false_ne_true)]
  rw [this]

theorem stripLeftP_cons_neg (p : Char → Bool) (c : Char) (x : List Char)
    (hc : p c = false) : stripLeftP p (c :: x) = c :: x := by
  unfold stripLeftP
  rw [List.dropWhile_cons_of_neg (by rw [hc]; exact Bool.false_ne_true)]

theorem pyStrip_stripRight (l : List Char) :
    pyStrip (stripRightP isPyWS l) = pyStrip l := by
  unfold pyStrip
  rw [stripRightP_idem]

theorem pyStrip_concat_ws (l : List Char) (c : Char) (hc : isPyWS c = true) :
    pyStrip (l ++ [c]) = pyStrip l := by
  unfold pyStrip
  rw [stripRightP_concat_pos _ _ _ hc]

theorem isMapLine_stripRight (l : List Char) :
    isMapLine (stripRightP isPyWS l) = isMapLine l := by
  unfold isMapLine
  rw [pyStrip_stripRight]

theorem isMapLine_concat_cr (l : List Char) : isMapLine (l ++ ['\r']) = isMapLine l := by
  unfold isMapLine
  rw [pyStrip_concat_ws l '\r' (by decide)]

theorem parseRow_stripRight (l : List Char) :
    parseRow (stripRightP isPyWS l) = parseRow l := by
  unfold parseRow
  rw [pyStrip_stripRight]

theorem splitQCQ_cons_ne (c : Char) (rest acc : List Char) (hc : c ≠ '"') :
    splitQCQ (c :: rest) acc = splitQCQ rest (c :: acc) := by
  match rest with
  | [] => rfl
  | [c2] => rfl
  | c2 :: c3 :: r =>
    show (if c = '"' && c2 = ',' && c3 = '"' then _ else _) = _
    rw [if_neg]
    intro hcon
    rcases Bool.and_eq_true .. |>.mp hcon with ⟨h1, -⟩
    rcases Bool.and_eq_true .. |>.mp h1 with ⟨h2, -⟩
    exact hc (by exact_mod_cast of_decide_eq_true h2)

theorem splitQCQ_cons_quote (rest acc : List Char) (h : rest.take 2 ≠ [',', '"']) :
    splitQCQ ('"' :: rest) acc = splitQCQ rest ('"' :: acc) := by
  match rest with
  | [] => rfl
  | [c2] => rfl
  | c2 :: c3 :: r =>
    show (if ('"' : Char) = '"' && c2 = ',' && c3 = '"' then _ else _) = _
    rw [if_neg]
    intro hcon
    rcases Bool.and_eq_true .. |>.mp hcon with ⟨h1, h3⟩
    rcases Bool.and_eq_true .. |>.mp h1 with ⟨-, h2⟩
    apply h
    rw [List.take_succ_cons, List.take_succ_cons, List.take_zero]
    rw [show c2 = ',' from by exact_mod_cast of_decide_eq_true h2,
      show c3 = '"' from by exact_mod_cast of_decide_eq_true h3]

theorem splitQCQ_delim (r acc : List Char) :
    splitQCQ ('"' :: ',' :: '"' :: r) acc = acc.reverse :: splitQCQ r [] := by
  show (if ('"' : Char) = '"' && (',' : Char) = ',' && ('"' : Char) = '"' then _ else _) = _
  rw [if_pos (by decide)]

theorem splitQCQ_walk (x : List Char) (hx : ∀ c ∈ x, c ≠ '"') :
    ∀ (rest acc : List Char), splitQCQ (x ++ rest) acc = splitQCQ rest (x.reverse ++ acc) := by
  induction x with
  | nil => intro rest acc; rfl
  | cons c x2 ih =>
    intro rest acc
    rw [List.cons_append, splitQCQ_cons_ne c _ acc (hx c (List.mem_cons_self c x2))]
    rw [ih (fun d hd => hx d (List.mem_cons_of_mem c hd)) rest (c :: acc)]
    rw [List.reverse_cons, List.append_assoc, List.singleton_append]

theorem splitQCQ_no_comma (s : List Char) (hs : ∀ c ∈ s, c ≠ ',') :
    ∀ acc, splitQCQ s acc = [acc.reverse ++ s] := by
  induction s with
  | nil => intro acc; rw [List.append_nil]; rfl
  | cons c r ih =>
    intro acc
    by_cases hc : c = '"'
    · subst hc
      rw [splitQCQ_cons_quote r acc ?_]
      · rw [ih (fun d hd => hs d (List.mem_cons_of_mem _ hd)) _]
        rw [List.reverse_cons, List.append_assoc, List.singleton_append]
      · intro hcon
        have hm : ',' ∈ r := by
          cases r with
          | nil => simp at hcon
          | cons a t =>
            cases t with
            | nil => simp at hcon
            | cons b t2 =>
              rw [List.take_succ_cons, List.take_succ_cons, List.take_zero] at hcon
              injection hcon with h1 h2
              rw [h1]
              exact List.mem_cons_self _ _
        exact hs ',' (List.mem_cons_of_mem _ hm) rfl
    · rw [splitQCQ_cons_ne c r acc hc]
      rw [ih (fun d hd => hs d (List.mem_cons_of_mem _ hd)) _]
      rw [List.reverse_cons, List.append_assoc, List.singleton_append]

end WaferMap

namespace WaferMap

/-! ## Digit and row-cell character lemmas -/

theorem digitChar_plain (n : Nat) (h : n < 10) : plainChar (digitChar n) = true := by
  interval_cases n <;> decide

theorem natToCharsAux_plain :
    ∀ (fuel n : Nat), ∀ c ∈ natToCharsAux fuel n, plainChar c = true := by
  intro fuel
  induction fuel with
  | zero => intro n c hc; exact absurd hc (List.not_mem_nil c)
  | succ f ih =>
    intro n c hc
    unfold natToCharsAux at hc
    by_cases hn : n < 10
    · rw [if_pos hn] at hc
      rw [List.mem_singleton] at hc
      rw [hc]
      exact digitChar_plain n hn
    · rw [if_neg hn] at hc
      rcases List.mem_append.mp hc with h1 | h1
      · exact ih (n / 10) c h1
      · rw [List.mem_singleton] at h1
        rw [h1]
        exact digitChar_plain (n % 10) (Nat.mod_lt n (by omega))

theorem natToChars_plain (n : Nat) : ∀ c ∈ natToChars n, plainChar c = true :=
  natToCharsAux_plain (n + 1) n

theorem natToChars_ne_nil (n : Nat) : natToChars n ≠ [] := by
  unfold natToChars natToCharsAux
  by_cases hn : n < 10
  · rw [if_pos hn]
    exact List.cons_ne_nil _ _
  · rw [if_neg hn]
    simp

theorem take_two_ne (x rest : List Char) (hx : ∀ c ∈ x, plainChar c = true)
    (hr : rest.head? ≠ some ',') : (x ++ rest).take 2 ≠ [',', '"'] := by
  cases x with
  | nil =>
    cases rest with
    | nil => simp
    | cons r0 t =>
      intro hcon
      rw [List.nil_append, List.take_succ_cons] at hcon
      injection hcon with h1 h2
      exact hr (by rw [List.head?_cons, h1])
  | cons x0 t =>
    intro hcon
    rw [List.cons_append, List.take_succ_cons] at hcon
    injection hcon with h1 h2
    have := hx x0 (List.mem_cons_self x0 t)
    rw [h1] at this
    exact absurd this (by decide)

theorem rowCells_eq_cons (c : Char) (cs : List Char) :
    rowCells (c :: cs) = '"' :: rowTail (c :: cs) := by
  cases cs with
  | nil => rfl
  | cons d cs2 => rfl

theorem rowTail_cons_cons (c d : Char) (cs : List Char) :
    rowTail (c :: d :: cs) = c :: '"' :: ',' :: '"' :: rowTail (d :: cs) := by
  show [c, '"', ','] ++ rowCells (d :: cs) = _
  rw [rowCells_eq_cons d cs]
  rfl

theorem rowCells_concat_quote (row : List Char) (hne : row ≠ []) :
    ∃ A, rowCells row = A ++ ['"'] := by
  induction row with
  | nil => exact absurd rfl hne
  | cons c cs ih =>
    cases cs with
    | nil => exact ⟨['"', c], rfl⟩
    | cons d cs2 =>
      obtain ⟨A, hA⟩ := ih (List.cons_ne_nil d cs2)
      refine ⟨['"', c, '"', ','] ++ A, ?_⟩
      rw [show rowCells (c :: d :: cs2) = ['"', c, '"', ','] ++ rowCells (d :: cs2) from rfl,
        hA, List.append_assoc]

theorem pyStrip_rowCells (row : List Char) (hne : row ≠ []) :
    pyStrip (rowCells row) = rowCells row := by
  obtain ⟨A, hA⟩ := rowCells_concat_quote row hne
  unfold pyStrip
  rw [hA, stripRightP_concat_neg _ _ _ (by decide), ← hA]
  match row, hne with
  | c :: cs, _ =>
    rw [rowCells_eq_cons]
    exact stripLeftP_cons_neg _ _ _ (by decide)

end WaferMap

namespace WaferMap

/-! ## Splitting a serialized grid row back into its cells -/

theorem splitQCQ_rowTail_plain :
    ∀ (cs : List Char) (c : Char) (pre : List Char),
      (c = '.' ∨ c = '?' ∨ c = '*') → (∀ d ∈ cs, d = '.' ∨ d = '?' ∨ d = '*') →
      (pre = ['"'] ∨ pre = []) →
      (splitQCQ (rowTail (c :: cs)) pre).map cellOf = (c :: cs).map (fun x => [x]) ∧
      (splitQCQ (rowTail (c :: cs)) pre).length = cs.length + 1 := by
  intro cs
  induction cs with
  | nil =>
    intro c pre hc hcs hpre
    rw [show rowTail [c] = [c, '"'] from rfl]
    rw [splitQCQ_cons_ne c ['"'] pre (by rcases hc with rfl | rfl | rfl <;> decide)]
    rw [splitQCQ_cons_quote [] (c :: pre) (by decide)]
    rw [show splitQCQ [] ('"' :: c :: pre) = [('"' :: c :: pre).reverse] from rfl]
    rcases hpre with rfl | rfl <;> rcases hc with rfl | rfl | rfl <;> exact ⟨by decide, by decide⟩
  | cons d cs2 ih =>
    intro c pre hc hcs hpre
    rw [rowTail_cons_cons c d cs2]
    rw [splitQCQ_cons_ne c _ pre (by rcases hc with rfl | rfl | rfl <;> decide)]
    rw [splitQCQ_delim (rowTail (d :: cs2)) (c :: pre)]
    obtain ⟨ihm, ihl⟩ := ih d [] (hcs d (List.mem_cons_self d cs2))
      (fun e he => hcs e (List.mem_cons_of_mem d he)) (Or.inr rfl)
    constructor
    · rw [List.map_cons, ihm]
      rw [show cellOf ((c :: pre).reverse) = [c] from by
        rcases hpre with rfl | rfl <;> rcases hc with rfl | rfl | rfl <;> decide]
      rfl
    · rw [List.length_cons, ihl, List.length_cons]

theorem splitQCQ_rowTail_sinf :
    ∀ (cs : List Char) (c : Char) (pre : List Char),
      (c = '.' ∨ c = '?' ∨ c = '*') → (∀ d ∈ cs, d = '.' ∨ d = '?' ∨ d = '*') →
      (pre = ['"'] ∨ pre = []) →
      (splitQCQ (rowTail (c :: cs) ++ [',', '"', '\r', '"']) pre).map cellOf =
        (c :: cs).map (fun x => [x]) ++ [[]] ∧
      (splitQCQ (rowTail (c :: cs) ++ [',', '"', '\r', '"']) pre).length = cs.length + 2 := by
  intro cs
  induction cs with
  | nil =>
    intro c pre hc hcs hpre
    rw [show rowTail [c] ++ [',', '"', '\r', '"'] =
      c :: '"' :: ',' :: '"' :: '\r' :: '"' :: [] from rfl]
    rw [splitQCQ_cons_ne c _ pre (by rcases hc with rfl | rfl | rfl <;> decide)]
    rw [splitQCQ_delim ['\r', '"'] (c :: pre)]
    rw [show splitQCQ ['\r', '"'] [] = [['\r', '"']] from rfl]
    rcases hpre with rfl | rfl <;> rcases hc with rfl | rfl | rfl <;> exact ⟨by decide, by decide⟩
  | cons d cs2 ih =>
    intro c pre hc hcs hpre
    rw [rowTail_cons_cons c d cs2]
    rw [show (c :: '"' :: ',' :: '"' :: rowTail (d :: cs2)) ++ [',', '"', '\r', '"'] =
      c :: '"' :: ',' :: '"' :: (rowTail (d :: cs2) ++ [',', '"', '\r', '"']) from rfl]
    rw [splitQCQ_cons_ne c _ pre (by rcases hc with rfl | rfl | rfl <;> decide)]
    rw [splitQCQ_delim (rowTail (d :: cs2) ++ [',', '"', '\r', '"']) (c :: pre)]
    obtain ⟨ihm, ihl⟩ := ih d [] (hcs d (List.mem_cons_self d cs2))
      (fun e he => hcs e (List.mem_cons_of_mem d he)) (Or.inr rfl)
    constructor
    · rw [List.map_cons, ihm]
      rw [show cellOf ((c :: pre).reverse) = [c] from by
        rcases hpre with rfl | rfl <;> rcases hc with rfl | rfl | rfl <;> decide]
      rfl
    · rw [List.length_cons, ihl, List.length_cons]

end WaferMap

namespace WaferMap

/-! ## Per-line lemmas for serialized grid rows -/

theorem rowTail_take2 (c : Char) (cs : List Char) : (rowTail (c :: cs)).take 2 = [c, '"'] := by
  cases cs with
  | nil => rfl
  | cons d cs2 => rw [rowTail_cons_cons]; rfl

theorem rowTail_append_take2 (c : Char) (cs x : List Char) :
    ((rowTail (c :: cs) ++ x).take 2) = [c, '"'] := by
  cases cs with
  | nil => rfl
  | cons d cs2 => rw [rowTail_cons_cons]; rfl

theorem cells_rowCells (row : List Char) (hne : row ≠ [])
    (hsym : ∀ c ∈ row, c = '.' ∨ c = '?' ∨ c = '*') :
    (splitQCQ (rowCells row) []).map cellOf = row.map (fun c => [c]) ∧
    (splitQCQ (rowCells row) []).length = row.length := by
  match row, hne with
  | c :: cs, _ =>
    rw [rowCells_eq_cons]
    rw [splitQCQ_cons_quote (rowTail (c :: cs)) [] (by
      rw [rowTail_take2]
      intro hcon
      injection hcon with h1 h2
      rcases hsym c (List.mem_cons_self c cs) with rfl | rfl | rfl <;> exact absurd h1 (by decide))]
    exact splitQCQ_rowTail_plain cs c ['"'] (hsym c (List.mem_cons_self c cs))
      (fun e he => hsym e (List.mem_cons_of_mem c he)) (Or.inl rfl)

theorem cells_rowCells_sinf (row : List Char) (hne : row ≠ [])
    (hsym : ∀ c ∈ row, c = '.' ∨ c = '?' ∨ c = '*') :
    (splitQCQ (rowCells row ++ [',', '"', '\r', '"']) []).map cellOf =
      row.map (fun c => [c]) ++ [[]] ∧
    (splitQCQ (rowCells row ++ [',', '"', '\r', '"']) []).length = row.length + 1 := by
  match row, hne with
  | c :: cs, _ =>
    rw [rowCells_eq_cons, List.cons_append]
    rw [splitQCQ_cons_quote (rowTail (c :: cs) ++ [',', '"', '\r', '"']) [] (by
      rw [rowTail_append_take2]
      intro hcon
      injection hcon with h1 h2
      rcases hsym c (List.mem_cons_self c cs) with rfl | rfl | rfl <;> exact absurd h1 (by decide))]
    exact splitQCQ_rowTail_sinf cs c ['"'] (hsym c (List.mem_cons_self c cs))
      (fun e he => hsym e (List.mem_cons_of_mem c he)) (Or.inl rfl)

theorem pyStrip_rowLineOf (mode : LineMode) (row : List Char) (hne : row ≠ []) :
    pyStrip (rowLineOf mode row) =
      (match mode with
       | LineMode.sinf => rowCells row ++ [',', '"', '\r', '"']
       | LineMode.crlf => rowCells row
       | LineMode.lf => rowCells row) := by
  cases mode with
  | lf => exact pyStrip_rowCells row hne
  | crlf =>
    show pyStrip (rowCells row ++ ['\r']) = rowCells row
    rw [pyStrip_concat_ws _ '\r' (by decide)]
    exact pyStrip_rowCells row hne
  | sinf =>
    show pyStrip (rowCells row ++ [',', '"', '\r', '"', '\r']) =
      rowCells row ++ [',', '"', '\r', '"']
    rw [show rowCells row ++ [',', '"', '\r', '"', '\r'] =
      (rowCells row ++ [',', '"', '\r', '"']) ++ ['\r'] from by
        rw [List.append_assoc]; rfl]
    rw [pyStrip_concat_ws _ '\r' (by decide)]
    unfold pyStrip
    rw [show rowCells row ++ [',', '"', '\r', '"'] =
      (rowCells row ++ [',', '"', '\r']) ++ ['"'] from by
        rw [List.append_assoc]; rfl]
    rw [stripRightP_concat_neg _ _ _ (by decide)]
    rw [show (rowCells row ++ [',', '"', '\r']) ++ ['"'] =
      rowCells row ++ [',', '"', '\r', '"'] from by
        rw [List.append_assoc]; rfl]
    match row, hne with
    | c :: cs, _ =>
      rw [rowCells_eq_cons, List.cons_append]
      exact stripLeftP_cons_neg _ _ _ (by decide)

theorem symCell_of_mem (row : List Char) (hsym : ∀ c ∈ row, c = '.' ∨ c = '?' ∨ c = '*') :
    ∀ x ∈ row.map (fun c => [c]), (x.isEmpty || isSymCell x) = true := by
  intro x hx
  rw [List.mem_map] at hx
  obtain ⟨c, hc, rfl⟩ := hx
  rcases hsym c hc with rfl | rfl | rfl <;> decide

theorem filter_cells_self (row : List Char) :
    (row.map (fun c => [c])).filter (fun c => !c.isEmpty) = row.map (fun c => [c]) := by
  apply List.filter_eq_self.mpr
  intro a ha
  rw [List.mem_map] at ha
  obtain ⟨c, hc, rfl⟩ := ha
  rfl

theorem parseRow_lineOf (mode : LineMode) (row : List Char) (hne : row ≠ [])
    (hsym : ∀ c ∈ row, c = '.' ∨ c = '?' ∨ c = '*') :
    parseRow (rowLineOf mode row) = some (row.map (fun c => [c])) := by
  unfold parseRow
  rw [pyStrip_rowLineOf mode row hne]
  cases mode with
  | sinf =>
    obtain ⟨hm, hl⟩ := cells_rowCells_sinf row hne hsym
    show parseRowCore (rowCells row ++ [',', '"', '\r', '"']) = _
    unfold parseRowCore
    rw [if_neg (by
      intro hcon
      rw [List.isEmpty_iff] at hcon
      match row, hne, hcon with
      | c :: cs, _, hcon =>
        rw [rowCells_eq_cons, List.cons_append] at hcon
        exact List.noConfusion hcon)]
    rw [hm]
    rw [if_pos (List.all_eq_true.mpr (by
      intro x hx
      rcases List.mem_append.mp hx with h1 | h1
      · exact symCell_of_mem row hsym x h1
      · rw [List.mem_singleton] at h1
        rw [h1]
        rfl))]
    rw [List.filter_append, filter_cells_self]
    rw [show List.filter (fun c => !c.isEmpty) [([] : List Char)] = [] from rfl,
      List.append_nil]
  | crlf =>
    obtain ⟨hm, hl⟩ := cells_rowCells row hne hsym
    show parseRowCore (rowCells row) = _
    unfold parseRowCore
    rw [if_neg (by
      intro hcon
      rw [List.isEmpty_iff] at hcon
      match row, hne, hcon with
      | c :: cs, _, hcon =>
        rw [rowCells_eq_cons] at hcon
        exact List.noConfusion hcon)]
    rw [hm]
    rw [if_pos (List.all_eq_true.mpr (symCell_of_mem row hsym))]
    rw [filter_cells_self]
  | lf =>
    obtain ⟨hm, hl⟩ := cells_rowCells row hne hsym
    show parseRowCore (rowCells row) = _
    unfold parseRowCore
    rw [if_neg (by
      intro hcon
      rw [List.isEmpty_iff] at hcon
      match row, hne, hcon with
      | c :: cs, _, hcon =>
        rw [rowCells_eq_cons] at hcon
        exact List.noConfusion hcon)]
    rw [hm]
    rw [if_pos (List.all_eq_true.mpr (symCell_of_mem row hsym))]
    rw [filter_cells_self]

theorem isMapLine_lineOf (mode : LineMode) (row : List Char) (hne : row ≠ [])
    (hsym : ∀ c ∈ row, c = '.' ∨ c = '?' ∨ c = '*') (h10 : 10 ≤ row.length) :
    isMapLine (rowLineOf mode row) = true := by
  unfold isMapLine
  rw [pyStrip_rowLineOf mode row hne]
  cases mode with
  | sinf =>
    obtain ⟨hm, hl⟩ := cells_rowCells_sinf row hne hsym
    show mapLineTest (rowCells row ++ [',', '"', '\r', '"']) = true
    unfold mapLineTest
    rw [if_neg (by
      intro hcon
      rw [List.isEmpty_iff] at hcon
      match row, hne, hcon with
      | c :: cs, _, hcon =>
        rw [rowCells_eq_cons, List.cons_append] at hcon
        exact List.noConfusion hcon)]
    rw [if_neg (by rw [hl]; omega)]
    rw [hm]
    exact List.all_eq_true.mpr (by
      intro x hx
      rcases List.mem_append.mp hx with h1 | h1
      · exact symCell_of_mem row hsym x h1
      · rw [List.mem_singleton] at h1
        rw [h1]
        rfl)
  | crlf =>
    obtain ⟨hm, hl⟩ := cells_rowCells row hne hsym
    show mapLineTest (rowCells row) = true
    unfold mapLineTest
    rw [if_neg (by
      intro hcon
      rw [List.isEmpty_iff] at hcon
      match row, hne, hcon with
      | c :: cs, _, hcon =>
        rw [rowCells_eq_cons] at hcon
        exact List.noConfusion hcon)]
    rw [if_neg (by rw [hl]; omega)]
    rw [hm]
    exact List.all_eq_true.mpr (symCell_of_mem row hsym)
  | lf =>
    obtain ⟨hm, hl⟩ := cells_rowCells row hne hsym
    show mapLineTest (rowCells row) = true
    unfold mapLineTest
    rw [if_neg (by
      intro hcon
      rw [List.isEmpty_iff] at hcon
      match row, hne, hcon with
      | c :: cs, _, hcon =>
        rw [rowCells_eq_cons] at hcon
        exact List.noConfusion hcon)]
    rw [if_neg (by rw [hl]; omega)]
    rw [hm]
    exact List.all_eq_true.mpr (symCell_of_mem row hsym)

end WaferMap

namespace WaferMap

/-! ## Header lines never pass the map-row test -/

theorem plainChar_spec (c : Char) (h : plainChar c = true) :
    c ≠ '"' ∧ c ≠ ',' ∧ c ≠ '\n' ∧ c ≠ '\r' := by
  unfold plainChar at h
  rcases Bool.and_eq_true .. |>.mp h with ⟨h1, h4⟩
  rcases Bool.and_eq_true .. |>.mp h1 with ⟨h2, h3⟩
  rcases Bool.and_eq_true .. |>.mp h2 with ⟨h5, h6⟩
  refine ⟨?_, ?_, ?_, ?_⟩
  · intro hq; rw [hq] at h5; exact absurd h5 (by decide)
  · intro hq; rw [hq] at h6; exact absurd h6 (by decide)
  · intro hq; rw [hq] at h3; exact absurd h3 (by decide)
  · intro hq; rw [hq] at h4; exact absurd h4 (by decide)

theorem plain_ne_quote (x : List Char) (h : ∀ c ∈ x, plainChar c = true) :
    ∀ c ∈ x, c ≠ '"' := fun c hc => (plainChar_spec c (h c hc)).1

theorem mem_pyStrip (l : List Char) : ∀ c ∈ pyStrip l, c ∈ l := by
  intro c hc
  unfold pyStrip stripLeftP stripRightP at hc
  have h1 := (List.dropWhile_sublist (l := (l.reverse.dropWhile isPyWS).reverse)
    (p := isPyWS)).mem hc
  rw [List.mem_reverse] at h1
  have h2 := (List.dropWhile_sublist (l := l.reverse) (p := isPyWS)).mem h1
  rw [List.mem_reverse] at h2
  exact h2

theorem isMapLine_no_comma (l : List Char) (h : ∀ c ∈ l, c ≠ ',') :
    isMapLine l = false := by
  unfold isMapLine mapLineTest
  by_cases he : (pyStrip l).isEmpty = true
  · rw [if_pos he]
  · rw [if_neg he]
    rw [splitQCQ_no_comma (pyStrip l) (fun c hc => h c (mem_pyStrip l c hc)) []]
    rw [if_pos (by simp)]

theorem splitQCQ_quote_step (c2 c3 : Char) (r acc : List Char) (h : ¬(c2 = ',' ∧ c3 = '"')) :
    splitQCQ ('"' :: c2 :: c3 :: r) acc = splitQCQ (c2 :: c3 :: r) ('"' :: acc) := by
  show (if ('"' : Char) = '"' && c2 = ',' && c3 = '"' then _ else _) = _
  rw [if_neg]
  intro hcon
  rcases Bool.and_eq_true .. |>.mp hcon with ⟨h1, h3⟩
  rcases Bool.and_eq_true .. |>.mp h1 with ⟨-, h2⟩
  exact h ⟨by exact_mod_cast of_decide_eq_true h2, by exact_mod_cast of_decide_eq_true h3⟩

theorem take_two_comma_ne (y rest : List Char) (hy : y ≠ [])
    (hp : ∀ c ∈ y, plainChar c = true) : ((',' :: (y ++ rest)).take 2) ≠ [',', '"'] := by
  match y, hy with
  | y0 :: t, _ =>
    rw [List.cons_append, List.take_succ_cons, List.take_succ_cons, List.take_zero]
    intro hcon
    injection hcon with h1 h2
    injection h2 with h2 h3
    exact (plainChar_spec y0 (hp y0 (List.mem_cons_self y0 t))).1 h2

end WaferMap

namespace WaferMap

theorem splitQCQ_nil (acc : List Char) : splitQCQ [] acc = [acc.reverse] := rfl

theorem take_two_front_ne (x : List Char) (c0 : Char) (rest : List Char)
    (hx : ∀ c ∈ x, plainChar c = true) (h0 : c0 ≠ ',') :
    ((x ++ (c0 :: rest)).take 2) ≠ [',', '"'] := by
  cases x with
  | nil =>
    rw [List.nil_append, List.take_succ_cons]
    intro hcon
    injection hcon with h1 h2
    exact h0 h1
  | cons x0 t =>
    rw [List.cons_append, List.take_succ_cons]
    intro hcon
    injection hcon with h1 h2
    exact (plainChar_spec x0 (hx x0 (List.mem_cons_self x0 t))).2.1 h1

theorem line0_split_length (wid diamStr rows cols : List Char)
    (hw : ∀ c ∈ wid, plainChar c = true) (hd : ∀ c ∈ diamStr, plainChar c = true)
    (hr : ∀ c ∈ rows, plainChar c = true) (hc : ∀ c ∈ cols, plainChar c = true)
    (hrne : rows ≠ []) :
    (splitQCQ (['"'] ++ wid ++ ("\",6,\"METRIC\",\"BOTTOM\",\"").data ++ diamStr ++
      ("\",\"").data ++ diamStr ++ ("\",").data ++ rows ++ [','] ++ cols ++
      (",\"0\",\"0\"").data) []).length = 5 := by
  rw [show ("\",6,\"METRIC\",\"BOTTOM\",\"").data =
    ['"', ',', '6', ',', '"', 'M', 'E', 'T', 'R', 'I', 'C', '"', ',', '"',
     'B', 'O', 'T', 'T', 'O', 'M', '"', ',', '"'] from rfl]
  rw [show ("\",\"").data = ['"', ',', '"'] from rfl]
  rw [show ("\",").data = ['"', ','] from rfl]
  rw [show (",\"0\",\"0\"").data = [',', '"', '0', '"', ',', '"', '0', '"'] from rfl]
  simp only [List.append_assoc, List.cons_append, List.nil_append, List.singleton_append]
  rw [splitQCQ_cons_quote _ _ (take_two_front_ne wid '"' _ hw (by decide))]
  rw [splitQCQ_walk wid (plain_ne_quote wid hw)]
  rw [splitQCQ_quote_step ',' '6' _ _ (by decide)]
  rw [splitQCQ_cons_ne ',' _ _ (by decide)]
  rw [splitQCQ_cons_ne '6' _ _ (by decide)]
  rw [splitQCQ_cons_ne ',' _ _ (by decide)]
  rw [splitQCQ_quote_step 'M' 'E' _ _ (by decide)]
  rw [splitQCQ_cons_ne 'M' _ _ (by decide)]
  rw [splitQCQ_cons_ne 'E' _ _ (by decide)]
  rw [splitQCQ_cons_ne 'T' _ _ (by decide)]
  rw [splitQCQ_cons_ne 'R' _ _ (by decide)]
  rw [splitQCQ_cons_ne 'I' _ _ (by decide)]
  rw [splitQCQ_cons_ne 'C' _ _ (by decide)]
  rw [splitQCQ_delim]
  rw [splitQCQ_cons_ne 'B' _ _ (by decide)]
  rw [splitQCQ_cons_ne 'O' _ _ (by decide)]
  rw [splitQCQ_cons_ne 'T' _ _ (by decide)]
  rw [splitQCQ_cons_ne 'T' _ _ (by decide)]
  rw [splitQCQ_cons_ne 'O' _ _ (by decide)]
  rw [splitQCQ_cons_ne 'M' _ _ (by decide)]
  rw [splitQCQ_delim]
  rw [splitQCQ_walk diamStr (plain_ne_quote diamStr hd)]
  rw [splitQCQ_delim]
  rw [splitQCQ_walk diamStr (plain_ne_quote diamStr hd)]
  rw [splitQCQ_cons_quote _ _ (take_two_comma_ne rows _ hrne hr)]
  rw [splitQCQ_cons_ne ',' _ _ (by decide)]
  rw [splitQCQ_walk rows (plain_ne_quote rows hr)]
  rw [splitQCQ_cons_ne ',' _ _ (by decide)]
  rw [splitQCQ_walk cols (plain_ne_quote cols hc)]
  rw [splitQCQ_cons_ne ',' _ _ (by decide)]
  rw [splitQCQ_quote_step '0' '"' _ _ (by decide)]
  rw [splitQCQ_cons_ne '0' _ _ (by decide)]
  rw [splitQCQ_delim]
  rw [splitQCQ_cons_ne '0' _ _ (by decide)]
  rw [splitQCQ_cons_quote [] _ (by decide)]
  rw [splitQCQ_nil]
  rfl

end WaferMap

namespace WaferMap

theorem pyStrip_line0 (wid diamStr rows cols : List Char) :
    pyStrip (['"'] ++ wid ++ ("\",6,\"METRIC\",\"BOTTOM\",\"").data ++ diamStr ++
      ("\",\"").data ++ diamStr ++ ("\",").data ++ rows ++ [','] ++ cols ++
      (",\"0\",\"0\"").data) =
    ['"'] ++ wid ++ ("\",6,\"METRIC\",\"BOTTOM\",\"").data ++ diamStr ++
      ("\",\"").data ++ diamStr ++ ("\",").data ++ rows ++ [','] ++ cols ++
      (",\"0\",\"0\"").data := by
  unfold pyStrip
  rw [show (",\"0\",\"0\"").data = [',', '"', '0', '"', ',', '"', '0'] ++ ['"'] from rfl]
  rw [← List.append_assoc]
  rw [stripRightP_concat_neg _ _ _ (by decide)]
  rw [List.append_assoc]
  have hcons : ['"'] ++ wid ++ ("\",6,\"METRIC\",\"BOTTOM\",\"").data ++ diamStr ++
      ("\",\"").data ++ diamStr ++ ("\",").data ++ rows ++ [','] ++ cols ++
      ([',', '"', '0', '"', ',', '"', '0'] ++ ['"']) =
    '"' :: (wid ++ (("\",6,\"METRIC\",\"BOTTOM\",\"").data ++ (diamStr ++
      (("\",\"").data ++ (diamStr ++ (("\",").data ++ (rows ++ ([','] ++ (cols ++
      ([',', '"', '0', '"', ',', '"', '0'] ++ ['"'])))))))))) := by
    simp only [List.append_assoc, List.cons_append, List.nil_append, List.singleton_append]
  rw [hcons, stripLeftP_cons_neg _ _ _ (by decide), ← hcons]

end WaferMap

namespace WaferMap

theorem isMapLine_line0 (wid diamStr rows cols : List Char)
    (hw : ∀ c ∈ wid, plainChar c = true) (hd : ∀ c ∈ diamStr, plainChar c = true)
    (hr : ∀ c ∈ rows, plainChar c = true) (hc : ∀ c ∈ cols, plainChar c = true)
    (hrne : rows ≠ []) :
    isMapLine (['"'] ++ wid ++ ("\",6,\"METRIC\",\"BOTTOM\",\"").data ++ diamStr ++
      ("\",\"").data ++ diamStr ++ ("\",").data ++ rows ++ [','] ++ cols ++
      (",\"0\",\"0\"").data) = false := by
  unfold isMapLine
  rw [pyStrip_line0]
  unfold mapLineTest
  rw [if_neg (by
    intro hcon
    rw [List.isEmpty_iff] at hcon
    have : (['"'] ++ wid ++ ("\",6,\"METRIC\",\"BOTTOM\",\"").data ++ diamStr ++
        ("\",\"").data ++ diamStr ++ ("\",").data ++ rows ++ [','] ++ cols ++
        (",\"0\",\"0\"").data).length = 0 := by rw [hcon]; rfl
    simp at this)]
  rw [if_pos (by
    rw [line0_split_length wid diamStr rows cols hw hd hr hc hrne]
    omega)]

end WaferMap

namespace WaferMap

/-! ## Newline splitting of the serialized output -/

theorem splitNLAux_cons (c : Char) (r acc : List Char) :
    splitNLAux (c :: r) acc =
      if c = '\n' then acc.reverse :: splitNLAux r [] else splitNLAux r (c :: acc) := rfl

theorem splitNLAux_no_nl (l : List Char) (acc : List Char) (h : '\n' ∉ l) :
    splitNLAux l acc = [acc.reverse ++ l] := by
  induction l generalizing acc with
  | nil => simp [splitNLAux]
  | cons c r ih =>
    rw [splitNLAux_cons]
    rw [if_neg (by intro hcon; subst hcon; exact h (List.mem_cons_self _ _))]
    rw [ih (c :: acc) (fun hm => h (List.mem_cons_of_mem c hm))]
    congr 1
    rw [List.reverse_cons, List.append_assoc]
    rfl

theorem splitNLAux_append_nl (A : List Char) (r acc : List Char) (hA : '\n' ∉ A) :
    splitNLAux (A ++ '\n' :: r) acc = (acc.reverse ++ A) :: splitNLAux r [] := by
  induction A generalizing acc with
  | nil =>
    show splitNLAux ('\n' :: r) acc = _
    rw [splitNLAux_cons, if_pos rfl]
    simp
  | cons c A2 ih =>
    show splitNLAux (c :: (A2 ++ '\n' :: r)) acc = _
    rw [splitNLAux_cons]
    rw [if_neg (by intro hcon; subst hcon; exact hA (List.mem_cons_self _ _))]
    rw [ih (c :: acc) (fun hm => hA (List.mem_cons_of_mem c hm))]
    congr 1
    rw [List.reverse_cons, List.append_assoc]
    rfl

theorem splitNL_joinNL (A : List (List Char)) (T : List Char)
    (hA : ∀ l ∈ A, '\n' ∉ l) (hT : '\n' ∉ T) :
    splitNL (joinNL A ++ T) = A ++ [T] := by
  induction A with
  | nil =>
    show splitNL ([] ++ T) = [T]
    rw [List.nil_append]
    exact splitNLAux_no_nl T [] hT
  | cons a A2 ih =>
    show splitNL (((a ++ ['\n']) ++ joinNL A2) ++ T) = (a :: A2) ++ [T]
    rw [List.append_assoc, List.append_assoc]
    unfold splitNL
    rw [show a ++ (['\n'] ++ (joinNL A2 ++ T)) = a ++ '\n' :: (joinNL A2 ++ T) from rfl]
    rw [splitNLAux_append_nl a _ [] (hA a (List.mem_cons_self _ _))]
    rw [show splitNLAux (joinNL A2 ++ T) [] = splitNL (joinNL A2 ++ T) from rfl]
    rw [ih (fun l hl => hA l (List.mem_cons_of_mem a hl))]
    rfl

theorem joinNL_append (A B : List (List Char)) : joinNL (A ++ B) = joinNL A ++ joinNL B := by
  unfold joinNL
  rw [List.map_append, List.flatten_append]

theorem joinNL_singleton (l : List Char) : joinNL [l] = l ++ ['\n'] := by
  simp [joinNL]

theorem rowChunk_eq_lineOf (mode : LineMode) (row : List Char) :
    rowChunk mode row = rowLineOf mode row ++ ['\n'] := by
  cases mode with
  | sinf =>
    show rowCells row ++ [',', '"', '\r', '"'] ++ ['\r', '\n'] =
      (rowCells row ++ [',', '"', '\r', '"', '\r']) ++ ['\n']
    simp [List.append_assoc]
  | crlf =>
    show rowCells row ++ ['\r', '\n'] = (rowCells row ++ ['\r']) ++ ['\n']
    simp [List.append_assoc]
  | lf => rfl

theorem format_output_eq (grid : List (List Char)) (wid diamStr : List Char) (dieCount : Nat)
    (mode : LineMode) (binRows : List (List Char)) :
    format_output grid wid diamStr dieCount mode binRows =
      joinNL (((headerList grid wid diamStr dieCount binRows).map fun h => h ++ ['\r']) ++
        grid.map (rowLineOf mode)) := by
  rw [joinNL_append]
  unfold format_output joinNL
  rw [List.map_map, List.map_map]
  have h1 : ((fun l => l ++ ['\n']) ∘ fun h : List Char => h ++ ['\r']) =
      fun h : List Char => h ++ ['\r', '\n'] := by
    funext h
    show (h ++ ['\r']) ++ ['\n'] = h ++ ['\r', '\n']
    rw [List.append_assoc]
    rfl
  have h2 : ((fun l => l ++ ['\n']) ∘ rowLineOf mode) = rowChunk mode := by
    funext r
    show rowLineOf mode r ++ ['\n'] = rowChunk mode r
    exact (rowChunk_eq_lineOf mode r).symm
  rw [h1, h2]

end WaferMap

namespace WaferMap

/-! ## The final grid-row line after stripping -/

theorem rowCells_ne_nil (row : List Char) (hne : row ≠ []) : rowCells row ≠ [] := by
  match row, hne with
  | c :: cs, _ =>
    rw [rowCells_eq_cons]
    exact List.cons_ne_nil _ _

theorem stripRightP_rowline_nl (mode : LineMode) (row : List Char) (hne : row ≠ []) :
    stripRightP isPyWS (rowLineOf mode row ++ ['\n']) = pyStrip (rowLineOf mode row) := by
  rw [pyStrip_rowLineOf mode row hne, stripRightP_concat_pos _ _ _ (by decide)]
  cases mode with
  | sinf =>
    show stripRightP isPyWS (rowCells row ++ [',', '"', '\r', '"', '\r']) =
      rowCells row ++ [',', '"', '\r', '"']
    rw [show rowCells row ++ [',', '"', '\r', '"', '\r'] =
      (rowCells row ++ [',', '"', '\r', '"']) ++ ['\r'] from by rw [List.append_assoc]; rfl]
    rw [stripRightP_concat_pos _ _ _ (by decide)]
    rw [show rowCells row ++ [',', '"', '\r', '"'] =
      (rowCells row ++ [',', '"', '\r']) ++ ['"'] from by rw [List.append_assoc]; rfl]
    rw [stripRightP_concat_neg _ _ _ (by decide)]
  | crlf =>
    show stripRightP isPyWS (rowCells row ++ ['\r']) = rowCells row
    rw [stripRightP_concat_pos _ _ _ (by decide)]
    obtain ⟨A, hA⟩ := rowCells_concat_quote row hne
    rw [hA, stripRightP_concat_neg _ _ _ (by decide)]
  | lf =>
    show stripRightP isPyWS (rowCells row) = rowCells row
    obtain ⟨A, hA⟩ := rowCells_concat_quote row hne
    rw [hA, stripRightP_concat_neg _ _ _ (by decide)]

theorem pyStrip_rowLineOf_ne_nil (mode : LineMode) (row : List Char) (hne : row ≠ []) :
    pyStrip (rowLineOf mode row) ≠ [] := by
  rw [pyStrip_rowLineOf mode row hne]
  match row, hne with
  | c :: cs, _ =>
    cases mode with
    | sinf =>
      show rowCells (c :: cs) ++ [',', '"', '\r', '"'] ≠ []
      rw [rowCells_eq_cons, List.cons_append]
      exact List.cons_ne_nil _ _
    | crlf =>
      show rowCells (c :: cs) ≠ []
      rw [rowCells_eq_cons]
      exact List.cons_ne_nil _ _
    | lf =>
      show rowCells (c :: cs) ≠ []
      rw [rowCells_eq_cons]
      exact List.cons_ne_nil _ _

theorem parseRow_concat_cr (l : List Char) : parseRow (l ++ ['\r']) = parseRow l := by
  unfold parseRow
  rw [pyStrip_concat_ws l '\r' (by decide)]

theorem parseRow_pyStrip_rowLineOf (mode : LineMode) (row : List Char) (hne : row ≠ [])
    (hsym : ∀ c ∈ row, c = '.' ∨ c = '?' ∨ c = '*') :
    parseRow (pyStrip (rowLineOf mode row)) = some (row.map fun c => [c]) := by
  rw [pyStrip_rowLineOf mode row hne]
  cases mode with
  | sinf =>
    show parseRow (rowCells row ++ [',', '"', '\r', '"']) = _
    have h := parseRow_lineOf LineMode.sinf row hne hsym
    rw [show rowLineOf LineMode.sinf row =
      (rowCells row ++ [',', '"', '\r', '"']) ++ ['\r'] from by
        show rowCells row ++ [',', '"', '\r', '"', '\r'] =
          (rowCells row ++ [',', '"', '\r', '"']) ++ ['\r']
        rw [List.append_assoc]
        rfl] at h
    rw [parseRow_concat_cr] at h
    exact h
  | crlf => exact parseRow_lineOf LineMode.lf row hne hsym
  | lf => exact parseRow_lineOf LineMode.lf row hne hsym

theorem isMapLine_pyStrip_rowLineOf (mode : LineMode) (row : List Char) (hne : row ≠ [])
    (hsym : ∀ c ∈ row, c = '.' ∨ c = '?' ∨ c = '*') (h10 : 10 ≤ row.length) :
    isMapLine (pyStrip (rowLineOf mode row)) = true := by
  rw [pyStrip_rowLineOf mode row hne]
  cases mode with
  | sinf =>
    show isMapLine (rowCells row ++ [',', '"', '\r', '"']) = true
    have h := isMapLine_lineOf LineMode.sinf row hne hsym h10
    rw [show rowLineOf LineMode.sinf row =
      (rowCells row ++ [',', '"', '\r', '"']) ++ ['\r'] from by
        show rowCells row ++ [',', '"', '\r', '"', '\r'] =
          (rowCells row ++ [',', '"', '\r', '"']) ++ ['\r']
        rw [List.append_assoc]
        rfl] at h
    rw [isMapLine_concat_cr] at h
    exact h
  | crlf => exact isMapLine_lineOf LineMode.lf row hne hsym h10
  | lf => exact isMapLine_lineOf LineMode.lf row hne hsym h10

theorem not_mem_of_plain (x : Char) (l : List Char) (h : ∀ c ∈ l, plainChar c = true)
    (hx : plainChar x = false) : x ∉ l := by
  intro hm
  rw [h x hm] at hx
  exact Bool.noConfusion hx

theorem rowLineOf_no_nl (mode : LineMode) (row : List Char)
    (hsym : ∀ c ∈ row, c = '.' ∨ c = '?' ∨ c = '*') : '\n' ∉ rowLineOf mode row := by
  intro hmem
  have hrc : '\n' ∉ rowCells row := by
    intro hm
    rcases rowCells_chars row '\n' hm with h | h | h
    · exact absurd h (by decide)
    · exact absurd h (by decide)
    · rcases hsym _ h with h1 | h1 | h1 <;> exact absurd h1 (by decide)
  cases mode with
  | sinf =>
    rcases List.mem_append.mp hmem with h | h
    · exact hrc h
    · exact absurd h (by decide)
  | crlf =>
    rcases List.mem_append.mp hmem with h | h
    · exact hrc h
    · exact absurd h (by decide)
  | lf => exact hrc hmem

end WaferMap

namespace WaferMap

/-! ## Header lines contain no newline and never pass the map-row test -/

theorem line0_no_nl (wid diamStr rows cols : List Char)
    (hw : ∀ c ∈ wid, plainChar c = true) (hd : ∀ c ∈ diamStr, plainChar c = true)
    (hr : ∀ c ∈ rows, plainChar c = true) (hc : ∀ c ∈ cols, plainChar c = true) :
    '\n' ∉ ['"'] ++ wid ++ ("\",6,\"METRIC\",\"BOTTOM\",\"").data ++ diamStr ++
      ("\",\"").data ++ diamStr ++ ("\",").data ++ rows ++ [','] ++ cols ++
      (",\"0\",\"0\"").data := by
  intro hmem
  simp only [List.mem_append] at hmem
  rcases hmem with (((((((((h | h) | h) | h) | h) | h) | h) | h) | h) | h) | h
  · exact absurd h (by decide)
  · exact not_mem_of_plain _ _ hw (by decide) h
  · exact absurd h (by decide)
  · exact not_mem_of_plain _ _ hd (by decide) h
  · exact absurd h (by decide)
  · exact not_mem_of_plain _ _ hd (by decide) h
  · exact absurd h (by decide)
  · exact not_mem_of_plain _ _ hr (by decide) h
  · exact absurd h (by decide)
  · exact not_mem_of_plain _ _ hc (by decide) h
  · exact absurd h (by decide)

theorem quoted_nat_no_nl (n : Nat) : '\n' ∉ ['"'] ++ natToChars n ++ ['"'] := by
  intro hmem
  simp only [List.mem_append] at hmem
  rcases hmem with (h | h) | h
  · exact absurd h (by decide)
  · exact not_mem_of_plain _ _ (natToChars_plain n) (by decide) h
  · exact absurd h (by decide)

theorem quoted_nat_not_mapline (n : Nat) :
    isMapLine (['"'] ++ natToChars n ++ ['"']) = false := by
  apply isMapLine_no_comma
  intro c hc
  simp only [List.mem_append] at hc
  rcases hc with (h | h) | h
  · simp only [List.mem_singleton] at h
    subst h
    decide
  · exact (plainChar_spec c (natToChars_plain n c h)).2.1
  · simp only [List.mem_singleton] at h
    subst h
    decide

theorem headerList_length_pos (grid : List (List Char)) (wid diamStr : List Char)
    (dieCount : Nat) (binRows : List (List Char)) :
    0 < (headerList grid wid diamStr dieCount binRows).length := by
  unfold headerList
  rw [List.length_append]
  simp only [List.length_cons, List.length_nil]
  omega

theorem headerList_no_nl (grid : List (List Char)) (wid diamStr : List Char) (dieCount : Nat)
    (binRows : List (List Char))
    (hw : ∀ c ∈ wid, plainChar c = true) (hd : ∀ c ∈ diamStr, plainChar c = true)
    (hb : ∀ b ∈ binRows, '\n' ∉ b) :
    ∀ h ∈ headerList grid wid diamStr dieCount binRows, '\n' ∉ h := by
  intro h hh
  unfold headerList at hh
  rw [List.mem_append] at hh
  rcases hh with hh | hh
  · simp only [List.mem_cons, List.not_mem_nil, or_false] at hh
    rcases hh with rfl | rfl | rfl | rfl | rfl | rfl | rfl | rfl | rfl | rfl | rfl | rfl |
      rfl | rfl | rfl | rfl | rfl | rfl | rfl | rfl | rfl | rfl | rfl | rfl
    · exact line0_no_nl wid diamStr _ _ hw hd (natToChars_plain _) (natToChars_plain _)
    · decide
    · decide
    · decide
    · decide
    · decide
    · decide
    · decide
    · decide
    · decide
    · decide
    · decide
    · decide
    · decide
    · exact quoted_nat_no_nl dieCount
    · decide
    · decide
    · decide
    · decide
    · decide
    · decide
    · decide
    · decide
    · decide
  · by_cases hbe : binRows.isEmpty
    · rw [if_pos hbe] at hh
      exact absurd hh (List.not_mem_nil h)
    · rw [if_neg hbe] at hh
      rcases List.mem_cons.mp hh with rfl | hh2
      · exact quoted_nat_no_nl binRows.length
      · exact hb h hh2

theorem headerList_not_mapline (grid : List (List Char)) (wid diamStr : List Char)
    (dieCount : Nat) (binRows : List (List Char))
    (hw : ∀ c ∈ wid, plainChar c = true) (hd : ∀ c ∈ diamStr, plainChar c = true)
    (hbm : ∀ b ∈ binRows, isMapLine b = false) :
    ∀ h ∈ headerList grid wid diamStr dieCount binRows, isMapLine (h ++ ['\r']) = false := by
  intro h hh
  rw [isMapLine_concat_cr]
  unfold headerList at hh
  rw [List.mem_append] at hh
  rcases hh with hh | hh
  · simp only [List.mem_cons, List.not_mem_nil, or_false] at hh
    rcases hh with rfl | rfl | rfl | rfl | rfl | rfl | rfl | rfl | rfl | rfl | rfl | rfl |
      rfl | rfl | rfl | rfl | rfl | rfl | rfl | rfl | rfl | rfl | rfl | rfl
    · exact isMapLine_line0 wid diamStr _ _ hw hd (natToChars_plain _) (natToChars_plain _)
        (natToChars_ne_nil _)
    · decide
    · decide
    · decide
    · decide
    · decide
    · decide
    · decide
    · decide
    · decide
    · decide
    · decide
    · decide
    · decide
    · exact quoted_nat_not_mapline dieCount
    · decide
    · decide
    · decide
    · decide
    · decide
    · decide
    · decide
    · decide
    · decide
  · by_cases hbe : binRows.isEmpty
    · rw [if_pos hbe] at hh
      exact absurd hh (List.not_mem_nil h)
    · rw [if_neg hbe] at hh
      rcases List.mem_cons.mp hh with rfl | hh2
      · exact quoted_nat_not_mapline binRows.length
      · exact hbm h hh2

end WaferMap

namespace WaferMap

/-! ## The header scan and the row-reconstruction loop on structured line lists -/

theorem findHeaderEnd_cons (l : List Char) (ls : List (List Char)) (i : Nat) :
    findHeaderEnd (l :: ls) i =
      if isMapLine l then i else findHeaderEnd ls (i + 1) := rfl

theorem findHeaderEnd_append_fail (A B : List (List Char)) (i : Nat)
    (hA : ∀ l ∈ A, isMapLine l = false) :
    findHeaderEnd (A ++ B) i = findHeaderEnd B (i + A.length) := by
  induction A generalizing i with
  | nil => simp
  | cons a A2 ih =>
    rw [List.cons_append, findHeaderEnd_cons]
    rw [if_neg (by rw [hA a (List.mem_cons_self _ _)]; exact Bool.false_ne_true)]
    rw [ih (i + 1) (fun l hl => hA l (List.mem_cons_of_mem a hl))]
    congr 1
    rw [List.length_cons]
    omega

theorem findHeaderEnd_cons_true (l : List Char) (ls : List (List Char)) (i : Nat)
    (hl : isMapLine l = true) : findHeaderEnd (l :: ls) i = i := by
  rw [findHeaderEnd_cons, if_pos hl]

theorem filterMap_parseRow_rows (mode : LineMode) (G : List (List Char))
    (hrow : ∀ row ∈ G, row ≠ [] ∧ ∀ c ∈ row, c = '.' ∨ c = '?' ∨ c = '*') :
    (G.map (rowLineOf mode)).filterMap parseRow = G.map fun r => r.map fun c => [c] := by
  induction G with
  | nil => rfl
  | cons g G2 ih =>
    rw [List.map_cons, List.map_cons, List.filterMap_cons]
    rw [parseRow_lineOf mode g (hrow g (List.mem_cons_self _ _)).1
      (hrow g (List.mem_cons_self _ _)).2]
    rw [ih (fun r hr => hrow r (List.mem_cons_of_mem g hr))]

end WaferMap

namespace WaferMap

/-- C1 (amended): `reparse` applied to `format_output` recovers exactly the
serialized grid, each cell as a one-character string, in all three
line-ending modes — provided the grid is nonempty with every row nonempty
and made of the wafer symbols, the first row is at least ten cells wide,
the wafer id and diameter text contain no quote, comma, CR or LF, and no
bin row contains a newline or itself passes the map-row test. -/
theorem roundtrip_wide (grid : List (List Char)) (wid diamStr : List Char) (dieCount : Nat)
    (mode : LineMode) (binRows : List (List Char))
    (hgne : grid ≠ [])
    (h10 : 10 ≤ (grid.headD []).length)
    (hrow : ∀ row ∈ grid, row ≠ [] ∧ ∀ c ∈ row, c = '.' ∨ c = '?' ∨ c = '*')
    (hw : ∀ c ∈ wid, plainChar c = true)
    (hd : ∀ c ∈ diamStr, plainChar c = true)
    (hb : ∀ x ∈ binRows, '\n' ∉ x ∧ isMapLine x = false) :
    reparse (format_output grid wid diamStr dieCount mode binRows) =
      some (gridAsCells grid) := by
  rcases List.eq_nil_or_concat grid with rfl | ⟨G, b, hgb⟩
  · exact absurd rfl hgne
  rw [List.concat_eq_append] at hgb
  subst hgb
  have hbmem : b ∈ G ++ [b] := List.mem_append.mpr (Or.inr (List.mem_singleton.mpr rfl))
  have hbne : b ≠ [] := (hrow b hbmem).1
  have hbsym := (hrow b hbmem).2
  have hbn : ∀ x ∈ binRows, '\n' ∉ x := fun x hx => (hb x hx).1
  have hbm : ∀ x ∈ binRows, isMapLine x = false := fun x hx => (hb x hx).2
  have hfmt : format_output (G ++ [b]) wid diamStr dieCount mode binRows =
      joinNL (((headerList (G ++ [b]) wid diamStr dieCount binRows).map fun h => h ++ ['\r']) ++
        G.map (rowLineOf mode)) ++ (rowLineOf mode b ++ ['\n']) := by
    rw [format_output_eq, List.map_append]
    rw [show List.map (rowLineOf mode) [b] = [rowLineOf mode b] from rfl]
    rw [← List.append_assoc, joinNL_append, joinNL_singleton]
  have hT_ne : stripRightP isPyWS (rowLineOf mode b ++ ['\n']) ≠ [] := by
    rw [stripRightP_rowline_nl mode b hbne]
    exact pyStrip_rowLineOf_ne_nil mode b hbne
  have hSR : stripRightP isPyWS (format_output (G ++ [b]) wid diamStr dieCount mode binRows) =
      joinNL (((headerList (G ++ [b]) wid diamStr dieCount binRows).map fun h => h ++ ['\r']) ++
        G.map (rowLineOf mode)) ++ pyStrip (rowLineOf mode b) := by
    rw [hfmt, stripRightP_append _ _ _ hT_ne, stripRightP_rowline_nl mode b hbne]
  have hcons : ∃ W, joinNL (((headerList (G ++ [b]) wid diamStr dieCount binRows).map
      fun h => h ++ ['\r']) ++ G.map (rowLineOf mode)) ++ pyStrip (rowLineOf mode b) =
      '"' :: W := ⟨_, rfl⟩
  obtain ⟨W, hW⟩ := hcons
  have hpy : pyStrip (format_output (G ++ [b]) wid diamStr dieCount mode binRows) =
      joinNL (((headerList (G ++ [b]) wid diamStr dieCount binRows).map fun h => h ++ ['\r']) ++
        G.map (rowLineOf mode)) ++ pyStrip (rowLineOf mode b) := by
    show stripLeftP isPyWS (stripRightP isPyWS
      (format_output (G ++ [b]) wid diamStr dieCount mode binRows)) = _
    rw [hSR, hW, stripLeftP_cons_neg _ _ _ (by decide), ← hW]
  have hA : ∀ l ∈ ((headerList (G ++ [b]) wid diamStr dieCount binRows).map
      fun h => h ++ ['\r']) ++ G.map (rowLineOf mode), '\n' ∉ l := by
    intro l hl
    rcases List.mem_append.mp hl with hl | hl
    · rw [List.mem_map] at hl
      obtain ⟨h, hh, rfl⟩ := hl
      intro hmem
      rcases List.mem_append.mp hmem with hm | hm
      · exact headerList_no_nl _ wid diamStr dieCount binRows hw hd hbn h hh hm
      · exact absurd hm (by decide)
    · rw [List.mem_map] at hl
      obtain ⟨r, hr, rfl⟩ := hl
      exact rowLineOf_no_nl mode r (hrow r (List.mem_append.mpr (Or.inl hr))).2
  have hT_no : '\n' ∉ pyStrip (rowLineOf mode b) :=
    fun hm => rowLineOf_no_nl mode b hbsym (mem_pyStrip _ '\n' hm)
  have hlines : splitNL (pyStrip (format_output (G ++ [b]) wid diamStr dieCount mode binRows)) =
      (((headerList (G ++ [b]) wid diamStr dieCount binRows).map fun h => h ++ ['\r']) ++
        G.map (rowLineOf mode)) ++ [pyStrip (rowLineOf mode b)] := by
    rw [hpy]
    exact splitNL_joinNL _ _ hA hT_no
  have hdata : ∀ i,
      findHeaderEnd (G.map (rowLineOf mode) ++ [pyStrip (rowLineOf mode b)]) i = i := by
    intro i
    cases G with
    | nil =>
      have h10b : 10 ≤ b.length := h10
      exact findHeaderEnd_cons_true _ _ i (isMapLine_pyStrip_rowLineOf mode b hbne hbsym h10b)
    | cons g G2 =>
      have hgmem : g ∈ (g :: G2) ++ [b] := List.mem_append.mpr (Or.inl (List.mem_cons_self _ _))
      have h10g : 10 ≤ g.length := h10
      exact findHeaderEnd_cons_true _ _ i
        (isMapLine_lineOf mode g (hrow g hgmem).1 (hrow g hgmem).2 h10g)
  have hfe : findHeaderEnd (splitNL (pyStrip
      (format_output (G ++ [b]) wid diamStr dieCount mode binRows))) 0 =
      (((headerList (G ++ [b]) wid diamStr dieCount binRows).map fun h => h ++ ['\r'])).length := by
    rw [hlines, List.append_assoc]
    rw [findHeaderEnd_append_fail _ _ 0
      (by
        intro l hl
        rw [List.mem_map] at hl
        obtain ⟨h, hh, rfl⟩ := hl
        exact headerList_not_mapline _ wid diamStr dieCount binRows hw hd hbm h hh)]
    rw [hdata, Nat.zero_add]
  have hHpos : (((headerList (G ++ [b]) wid diamStr dieCount binRows).map
      fun h => h ++ ['\r'])).length ≠ 0 := by
    rw [List.length_map]
    exact Nat.pos_iff_ne_zero.mp (headerList_length_pos _ _ _ _ _)
  have hsingle : List.filterMap parseRow [pyStrip (rowLineOf mode b)] =
      [b.map fun c => [c]] := by
    simp only [List.filterMap_cons, parseRow_pyStrip_rowLineOf mode b hbne hbsym,
      List.filterMap_nil]
  unfold reparse
  dsimp only
  rw [hfe, if_neg hHpos, hlines, List.append_assoc, List.drop_left]
  rw [List.filterMap_append, hsingle,
    filterMap_parseRow_rows mode G (fun r hr => hrow r (List.mem_append.mpr (Or.inl hr)))]
  rw [if_neg (by
    intro hcon
    rw [List.isEmpty_iff] at hcon
    simp at hcon)]
  unfold gridAsCells
  rw [List.map_append]
  rfl

end WaferMap

namespace WaferMap

/-- Witness for the round-trip theorem: a concrete one-row, ten-column
grid serialized in LF mode reparses to exactly its own cells. -/
theorem roundtrip_wide_witness :
    reparse (format_output [['.', '.', '.', '.', '.', '?', '*', '.', '.', '.']] ['W'] ['1'] 1
      LineMode.lf []) =
      some (gridAsCells [['.', '.', '.', '.', '.', '?', '*', '.', '.', '.']]) :=
  roundtrip_wide [['.', '.', '.', '.', '.', '?', '*', '.', '.', '.']] ['W'] ['1'] 1 LineMode.lf
    [] (by decide) (by decide) (by decide) (by decide) (by decide) (by decide)

/-- C1 (original claim refuted): a serialized one-column grid does not
round-trip — the reparser requires at least ten parts on the data-start
line, so it finds no data section and returns `none`. -/
theorem roundtrip_narrow_cex :
    reparse (format_output [['?']] ['W'] ['1'] 1 LineMode.lf []) = none := by decide

end WaferMap
